import Mathlib

/-!
Verification development for the subtitle-to-video pipeline of
EZLyricVideoMaker (`src/services/aiService.ts`, class `VideoService`).

Strings are modelled as `List Char` (JS strings are sequences of UTF-16
code units; all operations used by the pipeline are per-code-unit).
JS whitespace is modelled by its ASCII subset, which covers every
character the pipeline's own string literals and formats can produce.

Time is modelled in integer milliseconds (`ℤ`).  Every instant the source
computes is an exact multiple of 1/1000 s — `timeToSeconds` returns
`hours*3600 + minutes*60 + seconds + ms/1000` with integer components, and
the frame sampler uses `i / 4` s = `250*i` ms — so the source's
seconds-valued number is exactly (model value)/1000, and every comparison
the source performs on these values has the same outcome in both
representations (quarter-second sampling instants are exactly
representable as binary doubles, and any other pair of distinct values
differs by at least 1/2000 s, far above double rounding error).
-/

namespace EZLyric

abbrev Str := List Char

/-- Lift a Lean string literal into the `List Char` model. -/
def str (s : String) : Str := s.data

/-- ASCII fragment of the JS whitespace class (used by `trim` and `\s`). -/
def isJsWs (c : Char) : Bool :=
  c = ' ' || c = '\t' || c = '\n' || c = '\r' || c = '\x0b' || c = '\x0c'

/-- JS `String.prototype.trimStart`. -/
def trimLeft (s : Str) : Str := s.dropWhile isJsWs

/-- JS `String.prototype.trimEnd`. -/
def trimRight (s : Str) : Str := (s.reverse.dropWhile isJsWs).reverse

/-- JS `String.prototype.trim`. -/
def trim (s : Str) : Str := trimRight (trimLeft s)

/-- JS `'0' <= c && c <= '9'` test used by `parseInt`'s digit scan. -/
def isDig (c : Char) : Bool := '0' ≤ c && c ≤ '9'

/-- Numeric value of a (non-empty) digit run, most significant first. -/
def digitsVal (ds : Str) : ℕ := ds.foldl (fun acc c => 10 * acc + (c.toNat - 48)) 0

/-- Leading decimal digit run of `s`; `none` when there is none
(JS `parseInt` yields `NaN` in that case). -/
def leadDigits (s : Str) : Option ℕ :=
  let ds := s.takeWhile isDig
  if ds = [] then none else some (digitsVal ds)

/-- JS `parseInt(s, 10)`: skip leading whitespace, optional sign, then the
longest decimal-digit prefix; `none` models `NaN`. -/
def jsParseInt10 (s : Str) : Option Int :=
  let s1 := trimLeft s
  match s1 with
  | [] => none
  | c :: r =>
    if c = '-' then (leadDigits r).map (fun n => -(n : Int))
    else if c = '+' then (leadDigits r).map (fun n => (n : Int))
    else (leadDigits s1).map (fun n => (n : Int))

/-- Leading hexadecimal digit run value; `none` when empty. -/
def leadHexDigits (s : Str) : Option ℕ :=
  let isHex : Char → Bool := fun c =>
    isDig c || ('a' ≤ c && c ≤ 'f') || ('A' ≤ c && c ≤ 'F')
  let hv : Char → ℕ := fun c =>
    if isDig c then c.toNat - 48
    else if 'a' ≤ c && c ≤ 'f' then c.toNat - 87
    else c.toNat - 55
  let ds := s.takeWhile isHex
  if ds = [] then none else some (ds.foldl (fun acc c => 16 * acc + hv c) 0)

/-- JS `parseInt(s)` with no radix argument: as `parseInt(s, 10)` except a
`0x`/`0X` prefix switches to hexadecimal. -/
def jsParseIntAuto (s : Str) : Option Int :=
  let s1 := trimLeft s
  let core : Str → Option ℕ := fun t =>
    match t with
    | '0' :: x :: r => if x = 'x' || x = 'X' then leadHexDigits r else leadDigits t
    | t => leadDigits t
  match s1 with
  | [] => none
  | c :: r =>
    if c = '-' then (core r).map (fun n => -(n : Int))
    else if c = '+' then (core r).map (fun n => (n : Int))
    else (core s1).map (fun n => (n : Int))

/-- `parseInt(s, 10) || 0`: a `NaN` result collapses to `0`
(`0` itself is falsy but `0 || 0` is still `0`). -/
def pOr0 (s : Str) : Int := (jsParseInt10 s).getD 0

/-- Splitter on a character class, keeping empty components, as JS
`String.prototype.split` with a single-character-class regex does.
Returns (first component, later components). -/
def splitPair (p : Char → Bool) : Str → Str × List Str
  | [] => ([], [])
  | c :: rest =>
    if p c then ([], (splitPair p rest).1 :: (splitPair p rest).2)
    else (c :: (splitPair p rest).1, (splitPair p rest).2)

/-- JS `s.split(re)` for a single-character-class regex `re`. -/
def splitOnP (p : Char → Bool) (s : Str) : List Str :=
  (splitPair p s).1 :: (splitPair p s).2

/-- The separator class of `/[:,\.]/` from `timeToSeconds`/`fixSingleTime`. -/
def sepChar (c : Char) : Bool := c = ':' || c = ',' || c = '.'

/-- JS `padStart(n, c)`. -/
def padStart (n : ℕ) (c : Char) (s : Str) : Str :=
  List.replicate (n - s.length) c ++ s

/-- JS `padEnd(n, c)`. -/
def padEnd (n : ℕ) (c : Char) (s : Str) : Str :=
  s ++ List.replicate (n - s.length) c

/--
`VideoService.timeToSeconds` (aiService.ts lines 544–584): trim, split on
`:`/`,`/`.`, then interpret 4 components as `HH:MM:SS,mmm`, 3 components as
`MM:SS,mmm` when `p3 > 59 || parts[2].length === 3` and as `HH:MM:SS`
otherwise, 2 components as `MM:SS`; any other count returns `null`.
The source returns `hours*3600 + minutes*60 + seconds + ms/1000` seconds;
this model returns the same quantity in integer milliseconds.
-/
def timeToSeconds (time : Str) : Option ℤ :=
  let parts := splitOnP sepChar (trim time)
  match parts with
  | [a, b, c, d] =>
    some (pOr0 a * 3600000 + pOr0 b * 60000 + pOr0 c * 1000 + pOr0 d)
  | [a, b, c] =>
    if pOr0 c > 59 || c.length = 3 then
      some (pOr0 a * 60000 + pOr0 b * 1000 + pOr0 c)
    else
      some (pOr0 a * 3600000 + pOr0 b * 60000 + pOr0 c * 1000)
  | [a, b] =>
    some (pOr0 a * 60000 + pOr0 b * 1000)
  | _ => none

/-- The `parseInt(p3) > 59` test of `fixSingleTime` (note: no radix argument,
and `NaN > 59` is `false`). -/
def autoGt59 (s : Str) : Bool :=
  match jsParseIntAuto s with
  | some v => decide (v > 59)
  | none => false

/--
`VideoService.fixSingleTime` (aiService.ts lines 589–624): canonicalize a
timestamp to `HH:MM:SS,mmm`; unrecognized component counts are returned
trimmed but otherwise as-is.
-/
def fixSingleTime (time : Str) : Str :=
  let t := trim time
  let parts := splitOnP sepChar t
  match parts with
  | [hh, mm, ss, mmm] =>
    padStart 2 '0' hh ++ [':'] ++ padStart 2 '0' mm ++ [':'] ++ padStart 2 '0' ss
      ++ [','] ++ (padEnd 3 '0' mmm).take 3
  | [p1, p2, p3] =>
    if autoGt59 p3 || p3.length = 3 then
      str "00:" ++ padStart 2 '0' p1 ++ [':'] ++ padStart 2 '0' p2
        ++ [','] ++ (padEnd 3 '0' p3).take 3
    else
      padStart 2 '0' p1 ++ [':'] ++ padStart 2 '0' p2 ++ [':'] ++ padStart 2 '0' p3
        ++ str ",000"
  | [mm, ss] =>
    str "00:" ++ padStart 2 '0' mm ++ [':'] ++ padStart 2 '0' ss ++ str ",000"
  | _ => t

example : timeToSeconds (str "01:02:03,004") = some 3723004 := by decide
example : timeToSeconds (str "01:02,500") = some 62500 := by decide
example : timeToSeconds (str "1:2") = some 62000 := by decide
example : timeToSeconds (str "abc") = none := by decide
example : fixSingleTime (str "1:2,500") = str "00:01:02,500" := by decide
example : fixSingleTime (str "1:06:00,000") = str "01:06:00,000" := by decide
example : fixSingleTime (str "00:13:300") = str "00:00:13,300" := by decide
example : fixSingleTime (str "0:13") = str "00:00:13,000" := by decide

/-! ### Subtitle Track Parser (`parseSrtToSubtitles`, lines 494–539) -/

/-- JS `block.split(/\r?\n/)` — line split with leftmost-match semantics.
Returns (first line, later lines). -/
def lineSplitPair : Str → Str × List Str
  | [] => ([], [])
  | '\r' :: '\n' :: rest =>
    let (h, t) := lineSplitPair rest
    ([], h :: t)
  | '\n' :: rest =>
    let (h, t) := lineSplitPair rest
    ([], h :: t)
  | c :: rest =>
    let (h, t) := lineSplitPair rest
    (c :: h, t)

def lineSplit (s : Str) : List Str :=
  (lineSplitPair s).1 :: (lineSplitPair s).2

/-- One leftmost match of the block separator `/\r?\n\r?\n+/`, returning the
rest of the string after the (greedy) match.  The quantifiers of this
pattern are deterministic: a `\r` can only be kept when a `\n` follows, and
the trailing `\n+` simply eats the maximal newline run. -/
def tryBlockSep (s : Str) : Option Str :=
  let after1 : Str → Option Str := fun r =>
    match r with
    | '\r' :: '\n' :: r2 => some (r2.dropWhile (· = '\n'))
    | '\n' :: r2 => some (r2.dropWhile (· = '\n'))
    | _ => none
  match s with
  | '\r' :: '\n' :: r => after1 r
  | '\n' :: r => after1 r
  | _ => none

/-- JS `s.split(/\r?\n\r?\n+/)`, fuel-indexed so that the recursion is
structural (a matched separator consumes at least two characters, so
`s.length` fuel always suffices). -/
def blockSplitAux : ℕ → Str → Str × List Str
  | _, [] => ([], [])
  | 0, s => (s, [])
  | fuel + 1, c :: rest =>
    match tryBlockSep (c :: rest) with
    | some r =>
      let (h, t) := blockSplitAux fuel r
      ([], h :: t)
    | none =>
      let (h, t) := blockSplitAux fuel rest
      (c :: h, t)

def blockSplit (s : Str) : List Str :=
  (blockSplitAux s.length s).1 :: (blockSplitAux s.length s).2

/-- The block list both `parseSrtToSubtitles` and `srtToAss` start from:
`srtContent.trim().split(/\r?\n\r?\n+/)`. -/
def blocks (srtContent : Str) : List Str := blockSplit (trim srtContent)

/-- JS `line.includes('-->')`. -/
def hasArrow : Str → Bool
  | '-' :: '-' :: '>' :: _ => true
  | _ :: rest => hasArrow rest
  | [] => false

/-- JS `line.split('-->')`, pair form (first part, later parts). -/
def splitArrowPair : Str → Str × List Str
  | [] => ([], [])
  | '-' :: '-' :: '>' :: rest =>
    ([], (splitArrowPair rest).1 :: (splitArrowPair rest).2)
  | c :: rest =>
    (c :: (splitArrowPair rest).1, (splitArrowPair rest).2)

def splitArrow (s : Str) : List Str :=
  (splitArrowPair s).1 :: (splitArrowPair s).2

/-- The scan for the first line containing `-->`; returns that line and
the lines after it (`textStartIndex = i + 1`), or `none` when no line
contains the arrow (`if (!timingLine) continue`). -/
def findTiming : List Str → Option (Str × List Str)
  | [] => none
  | l :: rest => if hasArrow l then some (l, rest) else findTiming rest

/-- `join(sep)` on a list of strings. -/
def joinSep (sep : Str) : List Str → Str
  | [] => []
  | [x] => x
  | x :: rest => x ++ sep ++ joinSep sep rest

/-- A cue record `{text, startSec, endSec}` (times in milliseconds). -/
structure Cue where
  text : Str
  startSec : ℤ
  endSec : ℤ
deriving DecidableEq, Repr

/-- The per-block body of the `parseSrtToSubtitles` loop: `none` models a
`continue` (the block contributes no cue). -/
def blockToCue (block : Str) : Option Cue :=
  let lines := lineSplit block
  if lines.length < 2 then none
  else
    match findTiming lines with
    | none => none
    | some (timingLine, rest) =>
      match (splitArrow timingLine).map trim with
      | [p0, p1] =>
        match timeToSeconds p0, timeToSeconds p1 with
        | some startSec, some endSec =>
          let textLines := rest.filter (fun l => !(trim l).isEmpty)
          let text := joinSep [' '] textLines
          if text.isEmpty then none else some ⟨text, startSec, endSec⟩
        | _, _ => none
      | _ => none

/-- `VideoService.parseSrtToSubtitles` (aiService.ts lines 494–539). -/
def parseSrtToSubtitles (srtContent : Str) : List Cue :=
  (blocks srtContent).filterMap blockToCue

example :
    parseSrtToSubtitles
      (str "1\n00:00:01,000 --> 00:00:02,500\nhello world\n\n2\nno arrow here") =
    [⟨str "hello world", 1000, 2500⟩] := by decide

example :
    parseSrtToSubtitles (str "1\n00:00:01,000 --> 00:00:02,000\nfoo\nbar") =
    [⟨str "foo bar", 1000, 2000⟩] := by decide

example : parseSrtToSubtitles (str "") = [] := by decide

/-! ### Frame selection and the frame cache (`createVideo`, lines 757–790)

Frame instants are `i / fps` seconds with `fps = 4`, i.e. `250 * i` ms. -/

/-- The cue-membership test of
`subtitles.find(sub => currentTime >= sub.startSec && currentTime < sub.endSec)`. -/
def cueActive (t : ℤ) (c : Cue) : Bool :=
  decide (c.startSec ≤ t) && decide (t < c.endSec)

/-- The caption used for the frame at instant `t`:
`currentSubtitle?.text || ''`. -/
def captionFor (subs : List Cue) (t : ℤ) : Str :=
  match subs.find? (cueActive t) with
  | some c => c.text
  | none => []

/-- Sampling instant of frame `i` in milliseconds (`i / fps` with `fps = 4`). -/
def frameTime (i : ℕ) : ℤ := 250 * i

/-- Caption of frame `i`. -/
def frameCaption (subs : List Cue) (i : ℕ) : Str := captionFor subs (frameTime i)

/-- Decimal rendering of a natural number, as JS `i.toString()`. -/
def natToStrAux : ℕ → ℕ → Str
  | 0, n => [Char.ofNat (48 + n % 10)]
  | fuel + 1, n =>
    if n < 10 then [Char.ofNat (48 + n)]
    else natToStrAux fuel (n / 10) ++ [Char.ofNat (48 + n % 10)]

def natToStr (n : ℕ) : Str := natToStrAux n n

/-- `` `frame${i.toString().padStart(5, '0')}.jpg` ``. -/
def frameName (i : ℕ) : Str := str "frame" ++ padStart 5 '0' (natToStr i) ++ str ".jpg"

example : frameName 3 = str "frame00003.jpg" := by decide
example : frameName 123456 = str "frame123456.jpg" := by decide

/--
The frame-generation loop of `createVideo` with its one-entry cache
(`lastSubtitle` / `cachedFrameData`), abstracted over the compositor
`render` (the bytes `renderFrame` would produce for a caption; the base
image, resolution and subtitle position are fixed throughout the loop).
Arguments: frames still to produce, next frame index, `lastSubtitle`,
`cachedFrameData`.  Returns the written `(name, bytes)` sequence and the
number of `renderFrame` invocations.
-/
def genFramesAux {β : Type} (render : Str → β) (subs : List Cue) :
    ℕ → ℕ → Str → Option β → List (Str × β) × ℕ
  | 0, _, _, _ => ([], 0)
  | rem + 1, i, lastSubtitle, cached =>
    let subtitleText := frameCaption subs i
    match cached with
    | some d =>
      if subtitleText = lastSubtitle then
        let (fs, n) := genFramesAux render subs rem (i + 1) lastSubtitle (some d)
        ((frameName i, d) :: fs, n)
      else
        let d2 := render subtitleText
        let (fs, n) := genFramesAux render subs rem (i + 1) subtitleText (some d2)
        ((frameName i, d2) :: fs, n + 1)
    | none =>
      let d2 := render subtitleText
      let (fs, n) := genFramesAux render subs rem (i + 1) subtitleText (some d2)
      ((frameName i, d2) :: fs, n + 1)

/-- The whole loop: starts with `lastSubtitle = ''`, `cachedFrameData = null`. -/
def genFrames {β : Type} (render : Str → β) (subs : List Cue) (totalFrames : ℕ) :
    List (Str × β) × ℕ :=
  genFramesAux render subs totalFrames 0 [] none

example :
    (genFrames (fun c => c.length) [⟨str "A", 0, 2000⟩, ⟨str "B", 2000, 4000⟩] 10).2
      = 2 := by decide

example :
    (genFrames (fun c => c.length) [⟨str "A", 0, 2000⟩, ⟨str "B", 2500, 4000⟩] 10).1.map
      Prod.snd = [1, 1, 1, 1, 1, 1, 1, 1, 0, 0] := by decide

example :
    (genFrames (fun c => c.length) [⟨str "A", 0, 1000⟩, ⟨str "B", 1500, 2500⟩] 10).2
      = 3 := by decide

/-! ### Styled-event (ASS) export (`srtToAss`, lines 629–720)

The two timing regexes of `srtToAss` are fixed patterns, so they are
modelled as deterministic scanners.  In both patterns every backtracking
choice is forced: a `\d{1,2}` is always followed by `:`, so taking only
one of two available digits can never succeed, and `\s*` is always
followed by a non-`\s` literal, so the maximal whitespace run is the only
viable one. -/

/-- Eat one decimal digit. -/
def eatDigit : Str → Option (Char × Str)
  | c :: r => if isDig c then some (c, r) else none
  | [] => none

/-- Eat one specific character. -/
def eatChar (x : Char) : Str → Option Str
  | c :: r => if c = x then some r else none
  | [] => none

/-- Eat one character of a class. -/
def eatClass (p : Char → Bool) : Str → Option (Char × Str)
  | c :: r => if p c then some (c, r) else none
  | [] => none

/-- `\d{1,2}` (greedily), as constrained by a following `:`. -/
def eatD12 (s : Str) : Option (Str × Str) := do
  let (d1, r1) ← eatDigit s
  match eatDigit r1 with
  | some (d2, r2) => some ([d1, d2], r2)
  | none => some ([d1], r1)

/-- `\d{2}`. -/
def eatD2 (s : Str) : Option (Str × Str) := do
  let (a, r1) ← eatDigit s
  let (b, r2) ← eatDigit r1
  some ([a, b], r2)

/-- `\d{3}`. -/
def eatD3 (s : Str) : Option (Str × Str) := do
  let (a, r1) ← eatDigit s
  let (b, r2) ← eatDigit r1
  let (c, r3) ← eatDigit r2
  some ([a, b, c], r3)

/-- `\s*-->\s*`. -/
def eatArrowWs (s : Str) : Option Str :=
  match s.dropWhile isJsWs with
  | '-' :: '-' :: '>' :: r => some (r.dropWhile isJsWs)
  | _ => none

/-- Group `(\d{1,2}:\d{2}:\d{2})`: returns the matched text and the rest. -/
def eatHMS (s : Str) : Option (Str × Str) := do
  let (h, r1) ← eatD12 s
  let r2 ← eatChar ':' r1
  let (mm, r3) ← eatD2 r2
  let r4 ← eatChar ':' r3
  let (ss, r5) ← eatD2 r4
  some (h ++ [':'] ++ mm ++ [':'] ++ ss, r5)

/-- Match of `/(\d{1,2}:\d{2}:\d{2})[,.](\d{3})\s*-->\s*(\d{1,2}:\d{2}:\d{2})[,.](\d{3})/`
anchored at the start of `s`; groups 1–4. -/
def matchStdAt (s : Str) : Option (Str × Str × Str × Str) := do
  let (hms1, r1) ← eatHMS s
  let (_, r2) ← eatClass (fun c => c = ',' || c = '.') r1
  let (ms1, r3) ← eatD3 r2
  let r4 ← eatArrowWs r3
  let (hms2, r5) ← eatHMS r4
  let (_, r6) ← eatClass (fun c => c = ',' || c = '.') r5
  let (ms2, _) ← eatD3 r6
  some (hms1, ms1, hms2, ms2)

/-- The unanchored search `timingLine.match(standard pattern)`. -/
def matchStd : Str → Option (Str × Str × Str × Str)
  | [] => none
  | c :: r =>
    match matchStdAt (c :: r) with
    | some g => some g
    | none => matchStd r

/-- Match of `/(\d{1,2}):(\d{2})[,:](\d{3})\s*-->\s*(\d{1,2}):(\d{2})[,:](\d{3})/`
anchored at the start of `s`; groups 1–6. -/
def matchNonStdAt (s : Str) : Option (Str × Str × Str × Str × Str × Str) := do
  let (mm1, r1) ← eatD12 s
  let r2 ← eatChar ':' r1
  let (ss1, r3) ← eatD2 r2
  let (_, r4) ← eatClass (fun c => c = ',' || c = ':') r3
  let (ms1, r5) ← eatD3 r4
  let r6 ← eatArrowWs r5
  let (mm2, r7) ← eatD12 r6
  let r8 ← eatChar ':' r7
  let (ss2, r9) ← eatD2 r8
  let (_, r10) ← eatClass (fun c => c = ',' || c = ':') r9
  let (ms2, _) ← eatD3 r10
  some (mm1, ss1, ms1, mm2, ss2, ms2)

/-- The unanchored search for the non-standard pattern. -/
def matchNonStd : Str → Option (Str × Str × Str × Str × Str × Str)
  | [] => none
  | c :: r =>
    match matchNonStdAt (c :: r) with
    | some g => some g
    | none => matchNonStd r

/-- Decimal rendering of an `Int`, as a JS number interpolation; `none`
(`NaN`) renders as `"NaN"`. -/
def intOptToStr : Option ℤ → Str
  | none => str "NaN"
  | some v => if v < 0 then '-' :: natToStr (-v).toNat else natToStr v.toNat

/-- `VideoService.convertToAssTime` (lines 319–326): `HH:MM:SS` + 3-digit
milliseconds to `H:MM:SS.cc`.  A missing split component would render as
`"undefined"` in the template literal. -/
def convertToAssTime (hhmmss : Str) (ms : Str) : Str :=
  let parts := splitOnP (· = ':') hhmmss
  let h := jsParseInt10 (parts.getD 0 [])
  let mm := parts.getD 1 (str "undefined")
  let ss := parts.getD 2 (str "undefined")
  let cc := ms.take 2
  intOptToStr h ++ [':'] ++ mm ++ [':'] ++ ss ++ ['.'] ++ cc

example : convertToAssTime (str "01:02:03") (str "456") = str "1:02:03.45" := by decide

/-- The per-block body of the `srtToAss` loop, producing one `Dialogue`
event line or `none` for a `continue`. -/
def blockToEvent (block : Str) : Option Str :=
  let lines := lineSplit block
  if lines.length < 2 then none
  else
    match findTiming lines with
    | none => none
    | some (timingLine, rest) =>
      let times : Option (Str × Str) :=
        match matchStd timingLine with
        | some (hms1, ms1, hms2, ms2) =>
          some (convertToAssTime hms1 ms1, convertToAssTime hms2 ms2)
        | none =>
          match matchNonStd timingLine with
          | some (mm1, ss1, ms1, mm2, ss2, ms2) =>
            some (['0', ':'] ++ padStart 2 '0' mm1 ++ [':'] ++ ss1 ++ ['.'] ++ ms1.take 2,
                  ['0', ':'] ++ padStart 2 '0' mm2 ++ [':'] ++ ss2 ++ ['.'] ++ ms2.take 2)
          | none => none
      match times with
      | none => none
      | some (startTime, endTime) =>
        let textLines := rest.filter (fun l => !(trim l).isEmpty)
        let text := joinSep (str "\\N") textLines
        if text.isEmpty then none
        else
          some (str "Dialogue: 0," ++ startTime ++ [','] ++ endTime
            ++ str ",Default,,0,0,0,," ++ text)

/-- The `Dialogue` event list `srtToAss` appends after its fixed header
(the header is a constant string and carries no per-document data). -/
def assEvents (srtContent : Str) : List Str :=
  (blocks srtContent).filterMap blockToEvent

example :
    assEvents (str "1\n00:00:01,000 --> 00:00:02,500\nhello") =
    [str "Dialogue: 0,0:00:01.00,0:00:02.50,Default,,0,0,0,,hello"] := by decide

example :
    assEvents (str "1\n00:01:300 --> 00:04:000\nhi") =
    [str "Dialogue: 0,0:00:01.30,0:00:04.00,Default,,0,0,0,,hi"] := by decide

example : assEvents (str "1\n0:05 --> 0:09\nhi") = [] := by decide

example : parseSrtToSubtitles (str "1\n0:05 --> 0:09\nhi") =
    [⟨str "hi", 5000, 9000⟩] := by decide

/-! ### `createVideo` orchestration (lines 722–841)

The encoder's working storage is modelled as the list of file names
present (`ffmpeg.writeFile` / `deleteFile` / `exec`).  The external
effects are parameters: the audio probe result (`getAudioDuration`, in
milliseconds), whether the base image decodes (`loadImage`), whether the
encoder invocation throws, and which individual deletions throw.
Progress callbacks and the returned blob handle carry no storage state
and are not modelled; frame bytes are covered by `genFrames` above, so
storage tracks names only. -/

/-- The ways a `createVideo` run can throw. -/
inductive VideoErr where
  | notLoaded
  | imageDecode
  | execFailed
deriving DecidableEq, Repr

instance : DecidableEq (Except VideoErr Unit)
  | Except.ok (), Except.ok () => isTrue rfl
  | Except.ok (), Except.error _ => isFalse (fun h => Except.noConfusion h)
  | Except.error _, Except.ok () => isFalse (fun h => Except.noConfusion h)
  | Except.error a, Except.error b =>
    match decEq a b with
    | isTrue h => isTrue (by rw [h])
    | isFalse h => isFalse (fun hh => h (Except.error.inj hh))

/-- External behaviour of one `createVideo` run. -/
structure VideoEnv where
  loaded : Bool
  audioFileName : Str
  srtContent : Str
  /-- probe result of `getAudioDuration`, in milliseconds -/
  audioDurationMs : ℤ
  imageDecodeFails : Bool
  execFails : Bool
  /-- names whose `deleteFile` throws -/
  deleteFails : List Str

/-- `audioFile.name.split('.').pop() || 'mp3'`. -/
def audioExtOf (name : Str) : Str :=
  let last := (splitOnP (· = '.') name).getLastD []
  if last.isEmpty then str "mp3" else last

example : audioExtOf (str "song.mp3") = str "mp3" := by decide
example : audioExtOf (str "song") = str "song" := by decide
example : audioExtOf (str "song.") = str "mp3" := by decide

/-- `Math.ceil(audioDuration * fps)` with `fps = 4` and the duration given
in milliseconds, clamped to `ℕ` (a non-positive count runs no loop
iteration, exactly as in the source). -/
def totalFramesOf (durationMs : ℤ) : ℕ := ((4 * durationMs + 999) / 1000).toNat

example : totalFramesOf 10000 = 40 := by decide
example : totalFramesOf 500 = 2 := by decide
example : totalFramesOf 100 = 1 := by decide

/-- `ffmpeg.writeFile`: (re)creates the named file. -/
def writeFS (fs : List Str) (n : Str) : List Str :=
  if n ∈ fs then fs else fs ++ [n]

/--
The cleanup `try` block (lines 824–835): delete each name in order; the
first deletion that throws jumps to the `catch`, which swallows the error,
leaving the remaining names undeleted.
-/
def cleanupRun (fails : List Str) : List Str → List Str → List Str
  | [], fs => fs
  | n :: rest, fs => if n ∈ fails then fs else cleanupRun fails rest (fs.erase n)

/-- The temporary artifacts of a run, in deletion order: all frame files,
then the audio file, then the output container. -/
def artifactNames (totalFrames : ℕ) (audioName : Str) : List Str :=
  (List.range totalFrames).map frameName ++ [audioName, str "output.mp4"]

/--
`VideoService.createVideo` (lines 722–841), restricted to its
working-storage and control-flow behaviour.  Returns the run's outcome and
the final contents of the (initially empty) working storage.
-/
def createVideoModel (env : VideoEnv) : Except VideoErr Unit × List Str :=
  if !env.loaded then (Except.error VideoErr.notLoaded, [])
  else
    let audioName := str "audio." ++ audioExtOf env.audioFileName
    let _subtitles := parseSrtToSubtitles env.srtContent
    let totalFrames := totalFramesOf env.audioDurationMs
    if env.imageDecodeFails then (Except.error VideoErr.imageDecode, [])
    else
      -- frame loop: writes frame00000.jpg .. (bytes covered by `genFrames`)
      let fs1 := (List.range totalFrames).foldl (fun fs i => writeFS fs (frameName i)) []
      let fs2 := writeFS fs1 audioName
      if env.execFails then (Except.error VideoErr.execFailed, fs2)
      else
        let fs3 := writeFS fs2 (str "output.mp4")
        -- readFile(outputName) succeeds: the file was just produced
        let fs4 := cleanupRun env.deleteFails (artifactNames totalFrames audioName) fs3
        (Except.ok (), fs4)

/-- A success with nothing failing: storage ends empty. -/
example :
    createVideoModel
      ⟨true, str "a.mp3", str "", 500, false, false, []⟩ = (Except.ok (), []) := by decide

/-- An encoder failure: the frames and audio file are left behind. -/
example :
    createVideoModel
      ⟨true, str "a.mp3", str "", 500, false, true, []⟩ =
    (Except.error VideoErr.execFailed,
      [str "frame00000.jpg", str "frame00001.jpg", str "audio.mp3"]) := by decide

/-- A failing first deletion: swallowed, but everything else survives. -/
example :
    createVideoModel
      ⟨true, str "a.mp3", str "", 500, false, false, [str "frame00000.jpg"]⟩ =
    (Except.ok (),
      [str "frame00000.jpg", str "frame00001.jpg", str "audio.mp3", str "output.mp4"]) := by
  decide

/-! ### Caption wrapping (`wrapText`, lines 467–489)

`ctx.measureText(testLine).width > maxWidth` is abstracted as a predicate
`tooWide` on the candidate line: the canvas text metrics are external. -/

/-- The `for (const char of text.split(''))` accumulation loop of
`wrapText`, over the remaining characters and the current line. -/
def wrapTextAux (tooWide : Str → Bool) : Str → Str → List Str
  | [], currentLine => if currentLine.isEmpty then [] else [currentLine]
  | c :: rest, currentLine =>
    let testLine := currentLine ++ [c]
    if tooWide testLine && !currentLine.isEmpty then
      currentLine :: wrapTextAux tooWide rest [c]
    else
      wrapTextAux tooWide rest testLine

/-- `VideoService.wrapText` (lines 467–489). -/
def wrapText (tooWide : Str → Bool) (text : Str) : List Str :=
  wrapTextAux tooWide text []

example : wrapText (fun l => decide (l.length > 3)) (str "abcdefgh") =
    [str "abc", str "def", str "gh"] := by decide
example : wrapText (fun l => decide (l.length > 3)) (str "") = [] := by decide
example : wrapText (fun _ => true) (str "ab") = [str "a", str "b"] := by decide

/-- Number of maximal runs of consecutive equal captions among the frames
`0, …, n-1`: counts every `i` that starts a new run (`i = 0`, or the
caption differs from frame `i-1`'s). -/
def runStarts (subs : List Cue) (n : ℕ) : ℕ :=
  (List.range n).countP fun i =>
    decide (i = 0) || decide (frameCaption subs i ≠ frameCaption subs (i - 1))

-- Compositor invocations of `genFramesAux` when the cache already holds
-- the render of `lastSubtitle`.
def cacheMisses (subs : List Cue) : ℕ → ℕ → Str → ℕ
  | 0, _, _ => 0
  | rem + 1, i, lastSubtitle =>
    cacheMisses subs rem (i + 1) (frameCaption subs i) +
      (if frameCaption subs i = lastSubtitle then 0 else 1)

/-- The `(startSec, endSec)` pair the parser would extract from a timing
line, when its shape is accepted. -/
def timingPairOf (tl : Str) : Option (ℤ × ℤ) :=
  match (splitArrow tl).map trim with
  | [p0, p1] =>
    match timeToSeconds p0, timeToSeconds p1 with
    | some s, some e => some (s, e)
    | _, _ => none
  | _ => none

/-- Whether a block's timing line (if any) has its end timestamp no
earlier than its start timestamp. -/
def blockTimesOk (b : Str) : Bool :=
  match findTiming (lineSplit b) with
  | none => true
  | some (tl, _) =>
    match timingPairOf tl with
    | none => true
    | some (s, e) => decide (s ≤ e)

/-- Whether a string's last character (if any) is not JS whitespace. -/
def lastNonWs (s : Str) : Bool :=
  match s.getLast? with
  | none => true
  | some c => !isJsWs c

/--
Hypothesis under which `fixSingleTime` is idempotent: the milliseconds
field it writes (the first three characters of the zero-right-padded
milliseconds component) must not end in whitespace — otherwise the second
pass trims that whitespace away and re-pads, changing the string.
-/
def fixMsOk (x : Str) : Bool :=
  match splitOnP sepChar (trim x) with
  | [_, _, _, mmm] => lastNonWs ((padEnd 3 '0' mmm).take 3)
  | [_, _, p3] =>
    if autoGt59 p3 || p3.length = 3 then lastNonWs ((padEnd 3 '0' p3).take 3) else true
  | _ => true

/--
Hypothesis under which `parse ∘ canonicalize = parse`: for a recognized
shape, any component in milliseconds position must have literal width
exactly 3 (otherwise the canonicalizer right-pads or truncates it,
changing its parsed value); a 3-component timestamp may instead be read
as `H:MM:SS` by both the parser and the canonicalizer (third component
not exceeding 59 under both parses).
-/
def roundTripOk (x : Str) : Bool :=
  match splitOnP sepChar (trim x) with
  | [_, _] => true
  | [_, _, p3] =>
    decide (p3.length = 3) || (!autoGt59 p3 && decide (pOr0 p3 ≤ 59))
  | [_, _, _, mmm] => decide (mmm.length = 3)
  | _ => false

/-- A strict `HH:MM:SS,mmm` timestamp: twelve characters, all-digit
fields, colon/comma separators. -/
def canonTs (t : Str) : Prop :=
  ∃ a b c d e f g h i : Char,
    (∀ x ∈ [a, b, c, d, e, f, g, h, i], isDig x = true) ∧
    t = [a, b, ':', c, d, ':', e, f, ',', g, h, i]

/-- A timing line consisting of exactly two strict timestamps joined by
`" --> "`. -/
def canonArrowLine (l : Str) : Prop :=
  ∃ t1 t2 : Str, canonTs t1 ∧ canonTs t2 ∧ l = t1 ++ str " --> " ++ t2

/-! ## Theorems -/

lemma wrapTextAux_join (tooWide : Str → Bool) :
    ∀ (rest cur : Str), (wrapTextAux tooWide rest cur).flatten = cur ++ rest := by
  intro rest
  induction rest with
  | nil =>
    intro cur
    by_cases h : cur.isEmpty <;>
      simp_all [wrapTextAux, List.isEmpty_iff]
  | cons c rest ih =>
    intro cur
    by_cases h : (tooWide (cur ++ [c]) && !cur.isEmpty) = true
    · simp [wrapTextAux, h, ih]
    · simp [wrapTextAux, h, ih]

lemma wrapTextAux_ne_nil (tooWide : Str → Bool) :
    ∀ (rest cur l : Str), l ∈ wrapTextAux tooWide rest cur → l ≠ [] := by
  intro rest
  induction rest with
  | nil =>
    intro cur l hl
    by_cases h : cur.isEmpty
    · simp [wrapTextAux, h] at hl
    · simp only [wrapTextAux, h, Bool.false_eq_true, if_false, List.mem_singleton] at hl
      subst hl
      simpa [List.isEmpty_iff] using h
  | cons c rest ih =>
    intro cur l hl
    by_cases h : (tooWide (cur ++ [c]) && !cur.isEmpty) = true
    · simp only [wrapTextAux, h, if_true, List.mem_cons] at hl
      rcases hl with rfl | hl
      · have := (Bool.and_eq_true _ _).mp h |>.2
        simpa [List.isEmpty_iff] using this
      · exact ih _ _ hl
    · simp only [wrapTextAux, h, Bool.false_eq_true, if_false] at hl
      exact ih _ _ hl

/--
C10: caption wrapping loses no text — for every width predicate and every
caption string, concatenating the lines `wrapText` returns reproduces the
input exactly, and every returned line is non-empty.
-/
theorem wrapText_lossless (tooWide : Str → Bool) (text : Str) :
    (wrapText tooWide text).flatten = text ∧
      ∀ l ∈ wrapText tooWide text, l ≠ [] := by
  constructor
  · simpa using wrapTextAux_join tooWide text []
  · intro l hl
    exact wrapTextAux_ne_nil tooWide text [] l hl

theorem wrapText_lossless_witness :
    (wrapText (fun l => decide (l.length > 3)) (str "abcdefgh")).flatten = str "abcdefgh" ∧
      str "abc" ≠ ([] : Str) :=
  ⟨(wrapText_lossless (fun l => decide (l.length > 3)) (str "abcdefgh")).1,
   (wrapText_lossless (fun l => decide (l.length > 3)) (str "abcdefgh")).2
     (str "abc") (by decide)⟩

/--
C2: `timeToSeconds` splits on `:`/`,`/`.` and computes
`hours*3600 + minutes*60 + seconds + ms/1000` seconds (stated here in
milliseconds): 4 components are `H:MM:SS:mmm`; 3 components are
`MM:SS:mmm` exactly when the third component's value exceeds 59 or its
literal width is 3, else `H:MM:SS`; 2 components are `MM:SS`; any other
count yields `none`; unparsable components count as 0 (inside `pOr0`).
In particular `"01:02:03,004"` parses to 3723.004 s and `"01:02,500"` to
62.5 s, not 3722 s.
-/
theorem timeToSeconds_spec (s : Str) :
    (∀ a b c d, splitOnP sepChar (trim s) = [a, b, c, d] →
      timeToSeconds s =
        some (pOr0 a * 3600000 + pOr0 b * 60000 + pOr0 c * 1000 + pOr0 d)) ∧
    (∀ a b c, splitOnP sepChar (trim s) = [a, b, c] →
      ((pOr0 c > 59 ∨ c.length = 3) →
        timeToSeconds s = some (pOr0 a * 60000 + pOr0 b * 1000 + pOr0 c)) ∧
      (¬(pOr0 c > 59 ∨ c.length = 3) →
        timeToSeconds s = some (pOr0 a * 3600000 + pOr0 b * 60000 + pOr0 c * 1000))) ∧
    (∀ a b, splitOnP sepChar (trim s) = [a, b] →
      timeToSeconds s = some (pOr0 a * 60000 + pOr0 b * 1000)) ∧
    ((splitOnP sepChar (trim s)).length ≠ 2 →
      (splitOnP sepChar (trim s)).length ≠ 3 →
      (splitOnP sepChar (trim s)).length ≠ 4 →
      timeToSeconds s = none) ∧
    timeToSeconds (str "01:02:03,004") = some 3723004 ∧
    timeToSeconds (str "01:02,500") = some 62500 := by
  refine ⟨?_, ?_, ?_, ?_, by decide, by decide⟩
  · intro a b c d h
    simp [timeToSeconds, h]
  · intro a b c h
    constructor
    · intro hc
      have hb : (pOr0 c > 59 || c.length = 3) = true := by
        rcases hc with h1 | h1 <;> simp [h1]
      simp [timeToSeconds, h, hb]
    · intro hc
      push_neg at hc
      have hb : (pOr0 c > 59 || c.length = 3) = false := by
        simp [hc.1, hc.2]
      simp [timeToSeconds, h, hb]
  · intro a b h
    simp [timeToSeconds, h]
  · intro h2 h3 h4
    rcases hL : splitOnP sepChar (trim s) with _ | ⟨a, _ | ⟨b, _ | ⟨c, _ | ⟨d, _ | ⟨e, L⟩⟩⟩⟩⟩ <;>
      simp_all [timeToSeconds, hL]

theorem timeToSeconds_spec_witness :
    timeToSeconds (str "07:09") = some (pOr0 (str "07") * 60000 + pOr0 (str "09") * 1000) :=
  (timeToSeconds_spec (str "07:09")).2.2.1 (str "07") (str "09") (by decide)

lemma captionFor_characterization (subs : List Cue) (t : ℤ) :
    (∃ i, ∃ h : i < subs.length,
      cueActive t (subs.get ⟨i, h⟩) = true ∧
      (∀ j (hj : j < subs.length), j < i → cueActive t (subs.get ⟨j, hj⟩) = false) ∧
      captionFor subs t = (subs.get ⟨i, h⟩).text) ∨
    ((∀ c ∈ subs, cueActive t c = false) ∧ captionFor subs t = []) := by
  induction subs with
  | nil => exact Or.inr ⟨by simp, rfl⟩
  | cons c subs ih =>
    by_cases hc : cueActive t c = true
    · refine Or.inl ⟨0, by simp, ?_, ?_, ?_⟩
      · simpa using hc
      · intro j hj hlt
        omega
      · simp [captionFor, List.find?, hc]
    · have hcf : captionFor (c :: subs) t = captionFor subs t := by
        simp only [captionFor, List.find?]
        rw [Bool.eq_false_iff.mpr hc]
      rcases ih with ⟨i, h, hact, hmin, heq⟩ | ⟨hall, heq⟩
      · refine Or.inl ⟨i + 1, by simpa using Nat.succ_lt_succ h, ?_, ?_, ?_⟩
        · simpa using hact
        · intro j hj hlt
          cases j with
          | zero => simpa using Bool.eq_false_iff.mpr hc
          | succ k =>
            have hk : k < subs.length := by simpa using hj
            have := hmin k hk (by omega)
            simpa using this
        · rw [hcf, heq]
          simp
      · refine Or.inr ⟨?_, by rw [hcf, heq]⟩
        intro d hd
        rcases List.mem_cons.mp hd with rfl | hd
        · exact Bool.eq_false_iff.mpr hc
        · exact hall d hd

/--
C5: the caption for the frame at instant `t` is the text of the first cue
in source order whose half-open interval `[startSec, endSec)` contains
`t`, and the empty caption when no cue contains `t`.  In particular, for
cues `[{0,2,"A"}, {2,4,"B"}]` (seconds, stated here in milliseconds),
`t = 1.9 s` yields `"A"`, `t = 2.0 s` yields `"B"`, and `t = 5.0 s` yields
the empty caption.
-/
theorem frame_caption_selection (subs : List Cue) (t : ℤ) :
    ((∃ i, ∃ h : i < subs.length,
        cueActive t (subs.get ⟨i, h⟩) = true ∧
        (∀ j (hj : j < subs.length), j < i → cueActive t (subs.get ⟨j, hj⟩) = false) ∧
        captionFor subs t = (subs.get ⟨i, h⟩).text) ∨
      ((∀ c ∈ subs, cueActive t c = false) ∧ captionFor subs t = [])) ∧
    captionFor [⟨str "A", 0, 2000⟩, ⟨str "B", 2000, 4000⟩] 1900 = str "A" ∧
    captionFor [⟨str "A", 0, 2000⟩, ⟨str "B", 2000, 4000⟩] 2000 = str "B" ∧
    captionFor [⟨str "A", 0, 2000⟩, ⟨str "B", 2000, 4000⟩] 5000 = [] :=
  ⟨captionFor_characterization subs t, by decide, by decide, by decide⟩

theorem frame_caption_selection_witness :
    captionFor [⟨str "A", 0, 2000⟩] 1000 = str "A" := by
  rcases (frame_caption_selection [⟨str "A", 0, 2000⟩] 1000).1 with
    ⟨i, h, _, _, heq⟩ | ⟨hall, _⟩
  · rw [heq]
    match i, h with
    | 0, _ => rfl
  · exact absurd (hall ⟨str "A", 0, 2000⟩ (by simp)) (by decide)


lemma genFramesAux_cached {β : Type} (render : Str → β) (subs : List Cue) :
    ∀ (rem i : ℕ) (lastSubtitle : Str),
      genFramesAux render subs rem i lastSubtitle (some (render lastSubtitle)) =
        ((List.range rem).map
            (fun k => (frameName (i + k), render (frameCaption subs (i + k)))),
         cacheMisses subs rem i lastSubtitle) := by
  intro rem
  induction rem with
  | zero => intro i lastSubtitle; rfl
  | succ rem ih =>
    intro i lastSubtitle
    have hfst : (List.range (rem + 1)).map
          (fun k => (frameName (i + k), render (frameCaption subs (i + k)))) =
        (frameName i, render (frameCaption subs i)) ::
          (List.range rem).map
            (fun k => (frameName (i + 1 + k), render (frameCaption subs (i + 1 + k)))) := by
      rw [List.range_succ_eq_map, List.map_cons, List.map_map]
      refine congrArg₂ _ (by simp) ?_
      apply List.map_congr_left
      intro k _
      have e : i + Nat.succ k = i + 1 + k := by omega
      simp [Function.comp, e]
    by_cases h : frameCaption subs i = lastSubtitle
    · simp only [genFramesAux, h, reduceIte]
      rw [ih (i + 1) lastSubtitle]
      rw [hfst]
      simp [cacheMisses, h]
    · simp only [genFramesAux, h, reduceIte]
      rw [ih (i + 1) (frameCaption subs i)]
      rw [hfst]
      simp [cacheMisses, h]

lemma cacheMisses_eq_countP (subs : List Cue) :
    ∀ (rem i : ℕ),
      cacheMisses subs rem (i + 1) (frameCaption subs i) =
        (List.range rem).countP
          (fun k => decide (frameCaption subs (i + 1 + k) ≠ frameCaption subs (i + k))) := by
  intro rem
  induction rem with
  | zero => intro i; rfl
  | succ rem ih =>
    intro i
    rw [show cacheMisses subs (rem + 1) (i + 1) (frameCaption subs i) =
        cacheMisses subs rem (i + 2) (frameCaption subs (i + 1)) +
          (if frameCaption subs (i + 1) = frameCaption subs i then 0 else 1) from rfl]
    rw [ih (i + 1), List.range_succ_eq_map, List.countP_cons, List.countP_map]
    have hshift :
        (List.range rem).countP
            ((fun k => decide (frameCaption subs (i + 1 + k) ≠ frameCaption subs (i + k)))
              ∘ Nat.succ) =
          (List.range rem).countP
            (fun k => decide (frameCaption subs (i + 1 + 1 + k) ≠
              frameCaption subs (i + 1 + k))) := by
      apply List.countP_congr
      intro k _
      have e1 : i + 1 + Nat.succ k = i + 1 + 1 + k := by omega
      have e2 : i + Nat.succ k = i + 1 + k := by omega
      simp only [Function.comp_apply, e1, e2]
    rw [hshift]
    have hz : (if (fun k => decide (frameCaption subs (i + 1 + k) ≠ frameCaption subs (i + k)))
          0 = true then 1 else 0) =
        (if frameCaption subs (i + 1) = frameCaption subs i then 0 else 1) := by
      by_cases h : frameCaption subs (i + 1) = frameCaption subs i <;> simp [h]
    rw [hz]

/--
C6: the frame loop invokes the compositor exactly once per maximal run of
consecutive frame indices with identical caption text (`runStarts` counts
exactly the first index of each such run), and every frame written carries
exactly the bytes `renderFrame` would produce for that frame's caption —
the cache changes no frame content.
-/
theorem frame_cache_refinement {β : Type} (render : Str → β) (subs : List Cue) (n : ℕ) :
    (genFrames render subs n).1 =
      (List.range n).map (fun i => (frameName i, render (frameCaption subs i))) ∧
    (genFrames render subs n).2 = runStarts subs n := by
  cases n with
  | zero => exact ⟨rfl, rfl⟩
  | succ rem =>
    have hstep : genFrames render subs (rem + 1) =
        ((frameName 0, render (frameCaption subs 0)) ::
            (genFramesAux render subs rem 1 (frameCaption subs 0)
              (some (render (frameCaption subs 0)))).1,
          (genFramesAux render subs rem 1 (frameCaption subs 0)
            (some (render (frameCaption subs 0)))).2 + 1) := by
      simp [genFrames, genFramesAux]
    rw [hstep, genFramesAux_cached render subs rem 1 (frameCaption subs 0)]
    constructor
    · rw [List.range_succ_eq_map, List.map_cons, List.map_map]
      refine congrArg₂ _ rfl ?_
      apply List.map_congr_left
      intro k _
      have e : 1 + k = Nat.succ k := by omega
      simp [Function.comp, e]
    · rw [runStarts, List.range_succ_eq_map, List.countP_cons, List.countP_map]
      have h1 : cacheMisses subs rem 1 (frameCaption subs 0) =
          (List.range rem).countP
            (fun k => decide (frameCaption subs (1 + k) ≠ frameCaption subs k)) := by
        have := cacheMisses_eq_countP subs rem 0
        simpa using this
      rw [h1]
      have h2 : (List.range rem).countP
            (fun k => decide (frameCaption subs (1 + k) ≠ frameCaption subs k)) =
          (List.range rem).countP
            ((fun i => decide (i = 0) ||
              decide (frameCaption subs i ≠ frameCaption subs (i - 1))) ∘ Nat.succ) := by
        apply List.countP_congr
        intro k _
        have e : 1 + k = Nat.succ k := by omega
        simp [Function.comp, e]
      rw [h2]
      simp

theorem frame_cache_refinement_witness :
    (genFrames (fun c => c.length) [⟨str "A", 0, 1000⟩, ⟨str "B", 1500, 2500⟩] 10).2 =
      runStarts [⟨str "A", 0, 1000⟩, ⟨str "B", 1500, 2500⟩] 10 :=
  (frame_cache_refinement (fun c => c.length)
    [⟨str "A", 0, 1000⟩, ⟨str "B", 1500, 2500⟩] 10).2

lemma findTiming_none {L : List Str} (h : ∀ l ∈ L, hasArrow l = false) :
    findTiming L = none := by
  induction L with
  | nil => rfl
  | cons l rest ih =>
    have hl := h l (by simp)
    simp only [findTiming, hl, Bool.false_eq_true, if_false]
    exact ih (fun x hx => h x (by simp [hx]))

/--
C9: the Subtitle Track Parser is a total function that silently drops
malformed blocks: a block with no `-->` line, a block whose arrow line
does not split into exactly two timestamp substrings, a block whose
timestamps parse to `null`, and a block whose text is empty after
trimming each contribute no cue; a document mixing one well-formed block
and one block missing the arrow separator yields exactly one cue.
-/
theorem subtitle_parser_tolerance :
    (∀ b : Str, (∀ l ∈ lineSplit b, hasArrow l = false) → blockToCue b = none) ∧
    (∀ b tl rest, findTiming (lineSplit b) = some (tl, rest) →
      ((splitArrow tl).map trim).length ≠ 2 → blockToCue b = none) ∧
    (∀ b tl rest p0 p1, findTiming (lineSplit b) = some (tl, rest) →
      (splitArrow tl).map trim = [p0, p1] →
      (timeToSeconds p0 = none ∨ timeToSeconds p1 = none) → blockToCue b = none) ∧
    (∀ b tl rest, findTiming (lineSplit b) = some (tl, rest) →
      rest.filter (fun l => !(trim l).isEmpty) = [] → blockToCue b = none) ∧
    parseSrtToSubtitles
        (str "1\n00:00:01,000 --> 00:00:02,000\nhello\n\nbroken block with\nno arrow") =
      [⟨str "hello", 1000, 2000⟩] := by
  refine ⟨?_, ?_, ?_, ?_, by decide⟩
  · intro b h
    by_cases hl : (lineSplit b).length < 2
    · simp [blockToCue, hl]
    · simp [blockToCue, hl, findTiming_none h]
  · intro b tl rest hft hlen
    by_cases hl : (lineSplit b).length < 2
    · simp [blockToCue, hl]
    · rcases hp : (splitArrow tl).map trim with _ | ⟨p0, _ | ⟨p1, _ | ⟨p2, ps⟩⟩⟩ <;>
        simp_all [blockToCue, hl, hft]
  · intro b tl rest p0 p1 hft hp hbad
    by_cases hl : (lineSplit b).length < 2
    · simp [blockToCue, hl]
    · rcases hbad with hbad | hbad
      · rcases h1 : timeToSeconds p1 with _ | v <;>
          simp [blockToCue, hl, hft, hp, hbad, h1]
      · rcases h0 : timeToSeconds p0 with _ | v <;>
          simp [blockToCue, hl, hft, hp, hbad, h0]
  · intro b tl rest hft hempty
    by_cases hl : (lineSplit b).length < 2
    · simp [blockToCue, hl]
    · rcases hp : (splitArrow tl).map trim with _ | ⟨p0, ps0⟩
      · simp [blockToCue, hl, hft, hp]
      · rcases ps0 with _ | ⟨p1, ps1⟩
        · simp [blockToCue, hl, hft, hp]
        · rcases ps1 with _ | ⟨p2, ps⟩
          · rcases h0 : timeToSeconds p0 with _ | v0
            · simp [blockToCue, hl, hft, hp, h0]
            · rcases h1 : timeToSeconds p1 with _ | v1
              · simp [blockToCue, hl, hft, hp, h0, h1]
              · simp [blockToCue, hl, hft, hp, h0, h1, hempty, joinSep]
          · simp [blockToCue, hl, hft, hp]

theorem subtitle_parser_tolerance_witness :
    blockToCue (str "no arrow\nhere at all") = none :=
  subtitle_parser_tolerance.1 (str "no arrow\nhere at all") (by decide)


lemma blockToCue_timing {b : Str} {c : Cue} (h : blockToCue b = some c) :
    ∃ tl rest, findTiming (lineSplit b) = some (tl, rest) ∧
      timingPairOf tl = some (c.startSec, c.endSec) := by
  by_cases hl : (lineSplit b).length < 2
  · simp [blockToCue, hl] at h
  · rcases hft : findTiming (lineSplit b) with _ | ⟨tl, rest⟩
    · simp [blockToCue, hl, hft] at h
    · refine ⟨tl, rest, rfl, ?_⟩
      rcases hp : (splitArrow tl).map trim with _ | ⟨p0, ps0⟩
      · simp [blockToCue, hl, hft, hp] at h
      · rcases ps0 with _ | ⟨p1, ps1⟩
        · simp [blockToCue, hl, hft, hp] at h
        · rcases ps1 with _ | ⟨p2, ps⟩
          · rcases h0 : timeToSeconds p0 with _ | v0
            · simp [blockToCue, hl, hft, hp, h0] at h
            · rcases h1 : timeToSeconds p1 with _ | v1
              · simp [blockToCue, hl, hft, hp, h0, h1] at h
              · by_cases ht :
                  (joinSep [' '] (rest.filter (fun l => !(trim l).isEmpty))).isEmpty
                · simp [blockToCue, hl, hft, hp, h0, h1, ht] at h
                · simp only [blockToCue, hl, hft, hp, h0, h1, ht, if_neg, if_false,
                    Bool.false_eq_true, reduceIte, Option.some.injEq] at h
                  subst h
                  simp [timingPairOf, hp, h0, h1]
          · simp [blockToCue, hl, hft, hp] at h

/--
C8 (amended): every cue produced by the Subtitle Track Parser satisfies
`endSec ≥ startSec` provided every surviving block's end timestamp parses
to at least its start timestamp; the parser itself does not enforce the
ordering (see the counterexample).
-/
theorem cue_times_ordered (doc : Str)
    (h : ∀ b ∈ blocks doc, blockTimesOk b = true) :
    ∀ c ∈ parseSrtToSubtitles doc, c.startSec ≤ c.endSec := by
  intro c hc
  rcases List.mem_filterMap.mp hc with ⟨b, hb, hbc⟩
  rcases blockToCue_timing hbc with ⟨tl, rest, hft, hpair⟩
  have hok := h b hb
  simp only [blockTimesOk, hft, hpair] at hok
  exact of_decide_eq_true hok

theorem cue_times_ordered_witness :
    Cue.startSec ⟨str "ok", 1000, 2000⟩ ≤ Cue.endSec ⟨str "ok", 1000, 2000⟩ :=
  cue_times_ordered (str "1\n00:00:01,000 --> 00:00:02,000\nok") (by decide)
    ⟨str "ok", 1000, 2000⟩ (by decide)

/--
C8 (counterexample): a document whose timing line runs backwards yields a
cue with `endSec < startSec` — the claimed invariant fails on the code.
-/
theorem cue_times_ordered_cex :
    ∃ c ∈ parseSrtToSubtitles (str "1\n00:00:05,000 --> 00:00:01,000\nhi"),
      c.endSec < c.startSec := by decide

lemma writeFS_nodup {fs : List Str} {n : Str} (h : fs.Nodup) : (writeFS fs n).Nodup := by
  by_cases hm : n ∈ fs
  · simpa [writeFS, hm] using h
  · simp [writeFS, hm, List.nodup_append, h]

lemma mem_writeFS {fs : List Str} {n x : Str} (h : x ∈ writeFS fs n) : x ∈ fs ∨ x = n := by
  by_cases hm : n ∈ fs
  · simp [writeFS, hm] at h
    exact Or.inl h
  · simp [writeFS, hm] at h
    exact h

lemma foldl_writeFS_nodup :
    ∀ (L : List Str) (fs : List Str), fs.Nodup → (L.foldl writeFS fs).Nodup := by
  intro L
  induction L with
  | nil => intro fs h; exact h
  | cons n rest ih => intro fs h; exact ih (writeFS fs n) (writeFS_nodup h)

lemma mem_foldl_writeFS :
    ∀ (L : List Str) (fs : List Str) (x : Str), x ∈ L.foldl writeFS fs → x ∈ fs ∨ x ∈ L := by
  intro L
  induction L with
  | nil => intro fs x h; exact Or.inl h
  | cons n rest ih =>
    intro fs x h
    rcases ih (writeFS fs n) x h with h1 | h1
    · rcases mem_writeFS h1 with h2 | h2
      · exact Or.inl h2
      · exact Or.inr (by simp [h2])
    · exact Or.inr (by simp [h1])

lemma cleanupRun_no_failures :
    ∀ (L fs : List Str), fs.Nodup → (∀ x ∈ fs, x ∈ L) → cleanupRun [] L fs = [] := by
  intro L
  induction L with
  | nil =>
    intro fs _ hsub
    have : fs = [] :=
      List.eq_nil_iff_forall_not_mem.mpr (fun x hx => (List.not_mem_nil x) (hsub x hx))
    simpa [cleanupRun] using this
  | cons n rest ih =>
    intro fs hnd hsub
    rw [show cleanupRun [] (n :: rest) fs = cleanupRun [] rest (fs.erase n) by
      simp [cleanupRun]]
    refine ih (fs.erase n) (hnd.erase n) ?_
    intro x hx
    have hx2 := (List.Nodup.mem_erase_iff hnd).mp hx
    rcases List.mem_cons.mp (hsub x hx2.2) with h | h
    · exact absurd h hx2.1
    · exact h

/--
C1 (amended): a deletion failure never makes `createVideo` fail (the
cleanup `try` swallows it), and after a run in which the encoder succeeds
and no deletion fails, no temporary artifact remains in working storage.
On a run that throws, and past the first failing deletion, no cleanup is
attempted (see the counterexample).
-/
theorem createVideo_cleanup (env : VideoEnv)
    (hld : env.loaded = true) (himg : env.imageDecodeFails = false)
    (hexec : env.execFails = false) :
    (createVideoModel env).1 = Except.ok () ∧
    (env.deleteFails = [] → (createVideoModel env).2 = []) := by
  have hmodel : createVideoModel env =
      (Except.ok (),
        cleanupRun env.deleteFails
          (artifactNames (totalFramesOf env.audioDurationMs)
            (str "audio." ++ audioExtOf env.audioFileName))
          ((artifactNames (totalFramesOf env.audioDurationMs)
            (str "audio." ++ audioExtOf env.audioFileName)).foldl writeFS [])) := by
    rw [createVideoModel]
    simp only [hld, himg, hexec, Bool.not_true, Bool.false_eq_true, if_false, reduceIte]
    have hfold : (List.range (totalFramesOf env.audioDurationMs)).foldl
          (fun fs i => writeFS fs (frameName i)) [] =
        ((List.range (totalFramesOf env.audioDurationMs)).map frameName).foldl writeFS [] := by
      rw [List.foldl_map]
    rw [artifactNames, List.foldl_append]
    simp [hfold]
  constructor
  · rw [hmodel]
  · intro hdel
    rw [hmodel]
    simp only []
    rw [hdel]
    apply cleanupRun_no_failures
    · exact foldl_writeFS_nodup _ [] (List.nodup_nil)
    · intro x hx
      rcases mem_foldl_writeFS _ [] x hx with h | h
      · simp at h
      · exact h

theorem createVideo_cleanup_witness :
    (createVideoModel ⟨true, str "a.mp3", str "", 500, false, false, []⟩).1 =
        Except.ok () ∧
      (createVideoModel ⟨true, str "a.mp3", str "", 500, false, false, []⟩).2 = [] :=
  ⟨(createVideo_cleanup ⟨true, str "a.mp3", str "", 500, false, false, []⟩ rfl rfl rfl).1,
   (createVideo_cleanup ⟨true, str "a.mp3", str "", 500, false, false, []⟩ rfl rfl rfl).2 rfl⟩

/--
C1 (counterexample): the claimed cleanup invariant fails as stated — when
the encoder invocation throws, the frame files remain in working storage,
and a single failing deletion (though swallowed) prevents the deletion of
the remaining artifacts, leaving `output.mp4` behind after a successful
run.
-/
theorem createVideo_cleanup_cex :
    ((createVideoModel ⟨true, str "a.mp3", str "", 500, false, true, []⟩).1 =
        Except.error VideoErr.execFailed ∧
      str "frame00000.jpg" ∈
        (createVideoModel ⟨true, str "a.mp3", str "", 500, false, true, []⟩).2) ∧
    ((createVideoModel
          ⟨true, str "a.mp3", str "", 500, false, false, [str "frame00000.jpg"]⟩).1 =
        Except.ok () ∧
      str "output.mp4" ∈
        (createVideoModel
          ⟨true, str "a.mp3", str "", 500, false, false, [str "frame00000.jpg"]⟩).2) := by
  decide

/-! ### String lemmas for the timestamp canonicalizer -/

lemma ws_cases {c : Char} (h : isJsWs c = true) :
    c = ' ' ∨ c = '\t' ∨ c = '\n' ∨ c = '\r' ∨ c = '\x0b' ∨ c = '\x0c' := by
  simpa [isJsWs, or_assoc] using h

lemma isDig_not_ws {c : Char} (h : isDig c = true) : isJsWs c = false := by
  cases hw : isJsWs c
  · rfl
  · rcases ws_cases hw with rfl | rfl | rfl | rfl | rfl | rfl <;> exact absurd h (by decide)

lemma isDig_ne_dash {c : Char} (h : isDig c = true) : c ≠ '-' :=
  fun e => absurd h (by rw [e]; decide)

lemma isDig_ne_plus {c : Char} (h : isDig c = true) : c ≠ '+' :=
  fun e => absurd h (by rw [e]; decide)

lemma splitPair_sep_cons {p : Char → Bool} {c : Char} (s : Str) (hc : p c = true) :
    splitPair p (c :: s) = ([], (splitPair p s).1 :: (splitPair p s).2) := by
  simp [splitPair, hc]

lemma splitPair_not_sep_cons {p : Char → Bool} {c : Char} (s : Str) (hc : p c = false) :
    splitPair p (c :: s) = (c :: (splitPair p s).1, (splitPair p s).2) := by
  simp [splitPair, hc]

lemma splitPair_append {p : Char → Bool} :
    ∀ {A : Str}, (∀ c ∈ A, p c = false) → ∀ s : Str,
      splitPair p (A ++ s) = (A ++ (splitPair p s).1, (splitPair p s).2) := by
  intro A
  induction A with
  | nil => intro _ s; simp
  | cons a A ih =>
    intro hA s
    have ha : p a = false := hA a (by simp)
    have hA2 : ∀ c ∈ A, p c = false := fun c hc => hA c (by simp [hc])
    simp only [List.cons_append, splitPair_not_sep_cons _ ha, ih hA2 s]

lemma splitPair_no_sep {p : Char → Bool} {A : Str} (hA : ∀ c ∈ A, p c = false) :
    splitPair p A = (A, []) := by
  have := splitPair_append hA []
  simpa [splitPair] using this

lemma splitOnP_four {p : Char → Bool} {A B C D : Str} {x y z : Char}
    (hA : ∀ c ∈ A, p c = false) (hB : ∀ c ∈ B, p c = false)
    (hC : ∀ c ∈ C, p c = false) (hD : ∀ c ∈ D, p c = false)
    (hx : p x = true) (hy : p y = true) (hz : p z = true) :
    splitOnP p (A ++ x :: (B ++ y :: (C ++ z :: D))) = [A, B, C, D] := by
  rw [splitOnP, splitPair_append hA, splitPair_sep_cons _ hx, splitPair_append hB,
    splitPair_sep_cons _ hy, splitPair_append hC, splitPair_sep_cons _ hz,
    splitPair_no_sep hD]
  simp

lemma splitPair_fst_prefix (p : Char → Bool) : ∀ s : Str, (splitPair p s).1 <+: s := by
  intro s
  induction s with
  | nil => simp [splitPair]
  | cons c rest ih =>
    by_cases hc : p c
    · simp [splitPair_sep_cons _ hc]
    · rw [splitPair_not_sep_cons _ (by simpa using hc)]
      simpa [List.cons_prefix_cons] using ih

lemma splitPair_comps_no_sep (p : Char → Bool) :
    ∀ s : Str, (∀ c ∈ (splitPair p s).1, p c = false) ∧
      (∀ comp ∈ (splitPair p s).2, ∀ c ∈ comp, p c = false) := by
  intro s
  induction s with
  | nil => simp [splitPair]
  | cons c rest ih =>
    by_cases hc : p c
    · rw [splitPair_sep_cons _ hc]
      refine ⟨by simp, ?_⟩
      intro comp hcomp
      rcases List.mem_cons.mp hcomp with rfl | h2
      · exact ih.1
      · exact ih.2 comp h2
    · rw [splitPair_not_sep_cons _ (by simpa using hc)]
      refine ⟨?_, ih.2⟩
      intro d hd
      rcases List.mem_cons.mp hd with rfl | h2
      · simpa using hc
      · exact ih.1 d h2

lemma splitOnP_comps_no_sep {p : Char → Bool} {s : Str} {comp : Str}
    (h : comp ∈ splitOnP p s) : ∀ c ∈ comp, p c = false := by
  rw [splitOnP] at h
  rcases List.mem_cons.mp h with rfl | h2
  · exact (splitPair_comps_no_sep p s).1
  · exact (splitPair_comps_no_sep p s).2 comp h2

lemma splitPair_snd_nil {p : Char → Bool} :
    ∀ {s : Str}, (splitPair p s).2 = [] → (splitPair p s).1 = s := by
  intro s
  induction s with
  | nil => intro _; rfl
  | cons c rest ih =>
    intro h
    by_cases hc : p c
    · rw [splitPair_sep_cons _ hc] at h
      exact absurd h (by simp)
    · rw [splitPair_not_sep_cons _ (by simpa using hc)] at h ⊢
      simp [ih h]

lemma splitOnP_getLast_suffix {p : Char → Bool} :
    ∀ {s comp : Str}, (splitOnP p s).getLast? = some comp → comp <:+ s := by
  intro s
  induction s with
  | nil =>
    intro comp h
    simp [splitOnP, splitPair] at h
    simp [← h]
  | cons c rest ih =>
    intro comp h
    by_cases hc : p c
    · rw [splitOnP, splitPair_sep_cons _ hc] at h
      have h2 : (splitOnP p rest).getLast? = some comp := by
        rw [splitOnP]
        rw [List.getLast?_cons_cons] at h
        exact h
      exact (ih h2).trans (List.suffix_cons c rest)
    · rw [splitOnP, splitPair_not_sep_cons _ (by simpa using hc)] at h
      rcases hsnd : (splitPair p rest).2 with _ | ⟨e, es⟩
      · rw [hsnd] at h
        simp only [List.getLast?_singleton, Option.some.injEq] at h
        rw [← h, splitPair_snd_nil hsnd]
      · rw [hsnd, List.getLast?_cons_cons] at h
        have h2 : (splitOnP p rest).getLast? = some comp := by
          rw [splitOnP, hsnd, List.getLast?_cons_cons]
          exact h
        exact (ih h2).trans (List.suffix_cons c rest)

lemma dropWhile_head_ok {l : Str} {c : Char}
    (h : (l.dropWhile isJsWs).head? = some c) : isJsWs c = false := by
  induction l with
  | nil => simp at h
  | cons d rest ih =>
    by_cases hd : isJsWs d
    · rw [List.dropWhile_cons, if_pos hd] at h
      exact ih h
    · rw [List.dropWhile_cons, if_neg hd] at h
      simp only [List.head?_cons, Option.some.injEq] at h
      rw [← h]
      simpa using hd

lemma dropWhile_eq_self_of_head {l : Str}
    (h : ∀ c, l.head? = some c → isJsWs c = false) : l.dropWhile isJsWs = l := by
  cases l with
  | nil => rfl
  | cons d rest =>
    rw [List.dropWhile_cons, if_neg (by simp [h d rfl])]

lemma trimRight_prefix (s : Str) : trimRight s <+: s := by
  rw [trimRight, show s = s.reverse.reverse by simp, List.reverse_prefix, List.reverse_reverse]
  exact List.dropWhile_suffix isJsWs

lemma trim_head_ok {s : Str} {c : Char} (h : (trim s).head? = some c) :
    isJsWs c = false := by
  rcases trimRight_prefix (trimLeft s) with ⟨u, hu⟩
  rw [trim] at h
  have h2 : (trimLeft s).head? = some c := by
    rw [← hu, List.head?_append, h]
    rfl
  exact dropWhile_head_ok h2

lemma trim_last_ok {s : Str} {c : Char} (h : (trim s).getLast? = some c) :
    isJsWs c = false := by
  rw [trim, trimRight, List.getLast?_reverse] at h
  exact dropWhile_head_ok h

lemma trimLeft_eq_self {s : Str} (h : ∀ c, s.head? = some c → isJsWs c = false) :
    trimLeft s = s :=
  dropWhile_eq_self_of_head h

lemma trimRight_eq_self {s : Str} (h : ∀ c, s.getLast? = some c → isJsWs c = false) :
    trimRight s = s := by
  rw [trimRight, dropWhile_eq_self_of_head (by simpa using h), List.reverse_reverse]

lemma trim_eq_self {s : Str} (hh : ∀ c, s.head? = some c → isJsWs c = false)
    (hl : ∀ c, s.getLast? = some c → isJsWs c = false) : trim s = s := by
  rw [trim, trimLeft_eq_self hh, trimRight_eq_self hl]

lemma trim_idem (s : Str) : trim (trim s) = trim s :=
  trim_eq_self (fun _ h => trim_head_ok h) (fun _ h => trim_last_ok h)

lemma padStart_of_le {n : ℕ} {c : Char} {s : Str} (h : n ≤ s.length) :
    padStart n c s = s := by
  simp [padStart, Nat.sub_eq_zero_of_le h]

lemma padStart_length (n : ℕ) (c : Char) (s : Str) :
    (padStart n c s).length = max n s.length := by
  simp [padStart]
  omega

lemma take_padEnd_of_length {s : Str} (h : s.length = 3) :
    (padEnd 3 '0' s).take 3 = s := by
  rw [padEnd, h]
  simp [← h]

lemma length_take_padEnd (s : Str) : ((padEnd 3 '0' s).take 3).length = 3 := by
  simp [padEnd]
  omega

lemma mem_take_padEnd {s : Str} {c : Char} (h : c ∈ (padEnd 3 '0' s).take 3) :
    c ∈ s ∨ c = '0' := by
  have h2 := List.mem_of_mem_take h
  rw [padEnd] at h2
  rcases List.mem_append.mp h2 with h3 | h3
  · exact Or.inl h3
  · exact Or.inr (List.eq_of_mem_replicate h3)

-- Left-padding a component with one `'0'` does not change its
-- `parseInt(·, 10) || 0` value; components of length ≥ 2 are not padded.
lemma pOr0_padStart2 : ∀ s : Str, pOr0 (padStart 2 '0' s) = pOr0 s := by
  intro s
  match s with
  | [] => decide
  | c :: d :: t => rw [padStart_of_le (by simp)]
  | [c] =>
    show pOr0 ['0', c] = pOr0 [c]
    have hdw : List.dropWhile isJsWs ['0', c] = ['0', c] := by
      rw [List.dropWhile_cons, if_neg (by decide)]
    have hlhs : pOr0 ['0', c] =
        (leadDigits ['0', c]).getD 0 := by
      rw [pOr0, jsParseInt10]
      simp only [trimLeft, hdw]
      rw [if_neg (by decide), if_neg (by decide)]
      cases leadDigits ['0', c] <;> rfl
    by_cases hdig : isDig c = true
    · have hws := isDig_not_ws hdig
      have hd := isDig_ne_dash hdig
      have hp := isDig_ne_plus hdig
      have hdw2 : List.dropWhile isJsWs [c] = [c] := by
        rw [List.dropWhile_cons, if_neg (by simp [hws])]
      have hrhs : pOr0 [c] = (leadDigits [c]).getD 0 := by
        rw [pOr0, jsParseInt10]
        simp only [trimLeft, hdw2]
        rw [if_neg hd, if_neg hp]
        cases leadDigits [c] <;> rfl
      rw [hlhs, hrhs]
      have htw1 : List.takeWhile isDig ['0', c] = ['0', c] := by
        rw [List.takeWhile_cons, if_pos (by decide), List.takeWhile_cons, if_pos hdig]
        rfl
      have htw2 : List.takeWhile isDig [c] = [c] := by
        rw [List.takeWhile_cons, if_pos hdig]
        rfl
      rw [leadDigits, leadDigits]
      simp only [htw1, htw2]
      rw [if_neg (by simp), if_neg (by simp)]
      simp [digitsVal]
    · have hdig' : isDig c = false := by simpa using hdig
      have htw1 : List.takeWhile isDig ['0', c] = ['0'] := by
        rw [List.takeWhile_cons, if_pos (by decide), List.takeWhile_cons, if_neg (by simp [hdig'])]
      have hlhs0 : pOr0 ['0', c] = 0 := by
        rw [hlhs, leadDigits]
        simp only [htw1]
        rw [if_neg (by simp)]
        simp [digitsVal]
      rw [hlhs0]
      by_cases hws : isJsWs c = true
      · rw [pOr0, jsParseInt10]
        simp only [trimLeft, List.dropWhile_cons, if_pos hws, List.dropWhile_nil]
        rfl
      · have hws' : isJsWs c = false := by simpa using hws
        have hdw2 : List.dropWhile isJsWs [c] = [c] := by
          rw [List.dropWhile_cons, if_neg (by simp [hws'])]
        by_cases hd : c = '-'
        · subst hd
          rw [pOr0, jsParseInt10]
          simp only [trimLeft, hdw2]
          simp [leadDigits]
        · by_cases hp : c = '+'
          · subst hp
            rw [pOr0, jsParseInt10]
            simp only [trimLeft, hdw2]
            simp [leadDigits]
          · rw [pOr0, jsParseInt10]
            simp only [trimLeft, hdw2]
            have htw2 : List.takeWhile isDig [c] = [] := by
              rw [List.takeWhile_cons, if_neg (by simp [hdig'])]
            simp [hd, hp, leadDigits, htw2]

lemma prefix_head_ok {a s : Str} (hpre : a <+: s)
    (hs : ∀ c, s.head? = some c → isJsWs c = false) :
    ∀ c, a.head? = some c → isJsWs c = false := by
  intro c hc
  rcases hpre with ⟨u, rfl⟩
  apply hs
  rw [List.head?_append, hc]
  rfl

lemma suffix_last_ok {d s : Str} (hsuf : d <:+ s)
    (hs : ∀ c, s.getLast? = some c → isJsWs c = false) :
    ∀ c, d.getLast? = some c → isJsWs c = false := by
  intro c hc
  rcases hsuf with ⟨u, rfl⟩
  apply hs
  rw [List.getLast?_append, hc]
  rfl

lemma padStart2_head_ok {a : Str} (h : ∀ c, a.head? = some c → isJsWs c = false) :
    ∀ c, (padStart 2 '0' a).head? = some c → isJsWs c = false := by
  match a with
  | [] =>
    intro c hc
    simp only [padStart, List.length_nil, List.append_nil] at hc
    simp only [show List.replicate (2 - 0) '0' = ['0', '0'] from rfl,
      List.head?_cons, Option.some.injEq] at hc
    rw [← hc]
    decide
  | [x] =>
    intro c hc
    simp only [padStart, List.length_singleton] at hc
    simp only [show List.replicate (2 - 1) '0' = ['0'] from rfl, List.singleton_append,
      List.head?_cons, Option.some.injEq] at hc
    rw [← hc]
    decide
  | x :: y :: t =>
    intro c hc
    rw [padStart_of_le (by simp)] at hc
    exact h c hc

lemma padStart2_ne_nil (a : Str) : padStart 2 '0' a ≠ [] := by
  apply List.ne_nil_of_length_pos
  rw [padStart_length]
  omega

lemma getLast?_append_right {l l' : List Char} (h : l' ≠ []) :
    (l ++ l').getLast? = l'.getLast? := by
  rw [List.getLast?_append]
  rcases hl : l'.getLast? with _ | c
  · exact absurd (List.getLast?_eq_none_iff.mp hl) h
  · rfl

/--
Evaluation of `timeToSeconds` on a string in the canonical 4-field shape
`A:B:C,D` with separator-free fields, a non-whitespace first character and
a non-whitespace last character.
-/
lemma t2s_canonical {A B C D : Str}
    (hA : ∀ c ∈ A, sepChar c = false) (hB : ∀ c ∈ B, sepChar c = false)
    (hC : ∀ c ∈ C, sepChar c = false) (hD : ∀ c ∈ D, sepChar c = false)
    (hAne : A ≠ []) (hDne : D ≠ [])
    (hAhead : ∀ c, A.head? = some c → isJsWs c = false)
    (hDlast : ∀ c, D.getLast? = some c → isJsWs c = false) :
    timeToSeconds (A ++ ':' :: (B ++ ':' :: (C ++ ',' :: D))) =
      some (pOr0 A * 3600000 + pOr0 B * 60000 + pOr0 C * 1000 + pOr0 D) := by
  have hhead : ∀ c, (A ++ ':' :: (B ++ ':' :: (C ++ ',' :: D))).head? = some c →
      isJsWs c = false := by
    intro c hc
    rcases A with _ | ⟨a0, A'⟩
    · exact absurd rfl hAne
    · rw [List.cons_append, List.head?_cons] at hc
      exact hAhead c (by rw [List.head?_cons, hc])
  have hlast : ∀ c, (A ++ ':' :: (B ++ ':' :: (C ++ ',' :: D))).getLast? = some c →
      isJsWs c = false := by
    have e1 : (A ++ ':' :: (B ++ ':' :: (C ++ ',' :: D))).getLast? = D.getLast? := by
      rw [getLast?_append_right (by simp),
        show (':' :: (B ++ ':' :: (C ++ ',' :: D))) =
          [':'] ++ (B ++ ':' :: (C ++ ',' :: D)) from rfl,
        getLast?_append_right (by simp),
        getLast?_append_right (by simp),
        show (':' :: (C ++ ',' :: D)) = [':'] ++ (C ++ ',' :: D) from rfl,
        getLast?_append_right (by simp),
        getLast?_append_right (by simp),
        show (',' :: D) = [','] ++ D from rfl,
        getLast?_append_right hDne]
    intro c hc
    rw [e1] at hc
    exact hDlast c hc
  rw [timeToSeconds]
  rw [trim_eq_self hhead hlast]
  rw [splitOnP_four hA hB hC hD (by decide) (by decide) (by decide)]

lemma padStart_no_sep {n : ℕ} {a : Str} (h : ∀ c ∈ a, sepChar c = false) :
    ∀ c ∈ padStart n '0' a, sepChar c = false := by
  intro c hc
  rw [padStart] at hc
  rcases List.mem_append.mp hc with h2 | h2
  · rw [List.eq_of_mem_replicate h2]
    decide
  · exact h c h2

lemma head_ok_of_all {l : Str} (h : ∀ c ∈ l, isJsWs c = false) :
    ∀ c, l.head? = some c → isJsWs c = false :=
  fun c hc => h c (List.mem_of_mem_head? (by rw [hc]; rfl))

lemma last_ok_of_all {l : Str} (h : ∀ c ∈ l, isJsWs c = false) :
    ∀ c, l.getLast? = some c → isJsWs c = false :=
  fun c hc => h c (List.mem_of_getLast?_eq_some hc)

/--
C3 (amended): `timeToSeconds (fixSingleTime x) = timeToSeconds x` for
every recognized shape whose milliseconds-position component (when one is
read) has literal width exactly 3; a 3-component timestamp may instead be
read as `H:MM:SS` by both sides.  Without the width condition the
canonicalizer right-pads/truncates the milliseconds field, changing its
parsed value (see the counterexample).
-/
theorem parse_canonicalize_roundtrip (x : Str) (h : roundTripOk x = true) :
    timeToSeconds (fixSingleTime x) = timeToSeconds x := by
  rcases hp : splitOnP sepChar (trim x) with _ | ⟨a, _ | ⟨b, _ | ⟨c, _ | ⟨d, _ | ⟨e, L⟩⟩⟩⟩⟩
  · rw [roundTripOk, hp] at h
    simp at h
  · rw [roundTripOk, hp] at h
    simp at h
  · -- 2 components: MM:SS
    have ha : ∀ ch ∈ a, sepChar ch = false :=
      splitOnP_comps_no_sep (s := trim x) (by rw [hp]; simp)
    have hb : ∀ ch ∈ b, sepChar ch = false :=
      splitOnP_comps_no_sep (s := trim x) (by rw [hp]; simp)
    have hfix : fixSingleTime x =
        ['0', '0'] ++ ':' :: (padStart 2 '0' a ++ ':' :: (padStart 2 '0' b
          ++ ',' :: ['0', '0', '0'])) := by
      simp only [fixSingleTime, hp]
      rw [show str "00:" = ['0', '0', ':'] from rfl, show str ",000" = [',', '0', '0', '0'] from rfl]
      simp [List.append_assoc]
    have hrhs : timeToSeconds x = some (pOr0 a * 60000 + pOr0 b * 1000) := by
      simp only [timeToSeconds, hp]
    rw [hfix,
      t2s_canonical (by decide) (padStart_no_sep ha) (padStart_no_sep hb) (by decide)
        (by decide) (by decide) (head_ok_of_all (by decide)) (last_ok_of_all (by decide))]
    rw [hrhs, pOr0_padStart2, pOr0_padStart2,
      show pOr0 ['0', '0'] = 0 from by decide, show pOr0 ['0', '0', '0'] = 0 from by decide]
    simp only [Option.some.injEq]
    omega
  · -- 3 components
    have ha : ∀ ch ∈ a, sepChar ch = false :=
      splitOnP_comps_no_sep (s := trim x) (by rw [hp]; simp)
    have hb : ∀ ch ∈ b, sepChar ch = false :=
      splitOnP_comps_no_sep (s := trim x) (by rw [hp]; simp)
    have hc : ∀ ch ∈ c, sepChar ch = false :=
      splitOnP_comps_no_sep (s := trim x) (by rw [hp]; simp)
    have hafst : (splitPair sepChar (trim x)).1 = a := by
      have h2 := hp
      rw [splitOnP] at h2
      exact (List.cons.injEq _ _ _ _).mp h2 |>.1
    have hahead : ∀ ch, a.head? = some ch → isJsWs ch = false :=
      prefix_head_ok (hafst ▸ splitPair_fst_prefix sepChar (trim x))
        (fun _ hch => trim_head_ok hch)
    by_cases hlen : c.length = 3
    · -- MM:SS,mmm on both sides
      have hcond : (autoGt59 c || decide (c.length = 3)) = true := by simp [hlen]
      have hcsuf : c <:+ trim x :=
        splitOnP_getLast_suffix (by rw [hp]; rfl)
      have hclast : ∀ ch, c.getLast? = some ch → isJsWs ch = false :=
        suffix_last_ok hcsuf (fun _ hch => trim_last_ok hch)
      have hcne : c ≠ [] := by
        intro h2
        rw [h2] at hlen
        exact absurd hlen (by decide)
      have hfix : fixSingleTime x =
          ['0', '0'] ++ ':' :: (padStart 2 '0' a ++ ':' :: (padStart 2 '0' b ++ ',' :: c)) := by
        simp only [fixSingleTime, hp, hcond, if_true]
        rw [show str "00:" = ['0', '0', ':'] from rfl, take_padEnd_of_length hlen]
        simp [List.append_assoc]
      have hrhs : timeToSeconds x = some (pOr0 a * 60000 + pOr0 b * 1000 + pOr0 c) := by
        simp only [timeToSeconds, hp]
        rw [if_pos (by simp [hlen])]
      rw [hfix,
        t2s_canonical (by decide) (padStart_no_sep ha) (padStart_no_sep hb) hc
          (by decide) hcne (head_ok_of_all (by decide)) hclast]
      rw [hrhs, pOr0_padStart2, pOr0_padStart2, show pOr0 ['0', '0'] = 0 from by decide]
      simp only [Option.some.injEq]
      omega
    · -- H:MM:SS on both sides
      rw [roundTripOk, hp] at h
      have h2 : autoGt59 c = false ∧ pOr0 c ≤ 59 := by
        rcases Bool.or_eq_true_iff.mp h with h3 | h3
        · exact absurd (of_decide_eq_true h3) hlen
        · rcases Bool.and_eq_true_iff.mp h3 with ⟨h4, h5⟩
          exact ⟨by simpa using h4, of_decide_eq_true h5⟩
      have hcond : (autoGt59 c || decide (c.length = 3)) = false := by
        simp [h2.1, hlen]
      have hfix : fixSingleTime x =
          padStart 2 '0' a ++ ':' :: (padStart 2 '0' b ++ ':' :: (padStart 2 '0' c
            ++ ',' :: ['0', '0', '0'])) := by
        simp only [fixSingleTime, hp, hcond, Bool.false_eq_true, if_false]
        rw [show str ",000" = [',', '0', '0', '0'] from rfl]
        simp [List.append_assoc]
      have hrhs : timeToSeconds x =
          some (pOr0 a * 3600000 + pOr0 b * 60000 + pOr0 c * 1000) := by
        simp only [timeToSeconds, hp]
        rw [if_neg (by simp [hlen]; omega)]
      rw [hfix,
        t2s_canonical (padStart_no_sep ha) (padStart_no_sep hb) (padStart_no_sep hc)
          (by decide) (padStart2_ne_nil a) (by decide)
          (padStart2_head_ok hahead) (last_ok_of_all (by decide))]
      rw [hrhs, pOr0_padStart2, pOr0_padStart2, pOr0_padStart2,
        show pOr0 ['0', '0', '0'] = 0 from by decide]
      simp only [Option.some.injEq]
      omega
  · -- 4 components: HH:MM:SS,mmm
    rw [roundTripOk, hp] at h
    have hlen : d.length = 3 := of_decide_eq_true h
    have ha : ∀ ch ∈ a, sepChar ch = false :=
      splitOnP_comps_no_sep (s := trim x) (by rw [hp]; simp)
    have hb : ∀ ch ∈ b, sepChar ch = false :=
      splitOnP_comps_no_sep (s := trim x) (by rw [hp]; simp)
    have hc : ∀ ch ∈ c, sepChar ch = false :=
      splitOnP_comps_no_sep (s := trim x) (by rw [hp]; simp)
    have hd : ∀ ch ∈ d, sepChar ch = false :=
      splitOnP_comps_no_sep (s := trim x) (by rw [hp]; simp)
    have hafst : (splitPair sepChar (trim x)).1 = a := by
      have h2 := hp
      rw [splitOnP] at h2
      exact (List.cons.injEq _ _ _ _).mp h2 |>.1
    have hahead : ∀ ch, a.head? = some ch → isJsWs ch = false :=
      prefix_head_ok (hafst ▸ splitPair_fst_prefix sepChar (trim x))
        (fun _ hch => trim_head_ok hch)
    have hdsuf : d <:+ trim x :=
      splitOnP_getLast_suffix (by rw [hp]; rfl)
    have hdlast : ∀ ch, d.getLast? = some ch → isJsWs ch = false :=
      suffix_last_ok hdsuf (fun _ hch => trim_last_ok hch)
    have hdne : d ≠ [] := by
      intro h2
      rw [h2] at hlen
      exact absurd hlen (by decide)
    have hfix : fixSingleTime x =
        padStart 2 '0' a ++ ':' :: (padStart 2 '0' b ++ ':' :: (padStart 2 '0' c
          ++ ',' :: d)) := by
      simp only [fixSingleTime, hp]
      rw [take_padEnd_of_length hlen]
      simp [List.append_assoc]
    have hrhs : timeToSeconds x =
        some (pOr0 a * 3600000 + pOr0 b * 60000 + pOr0 c * 1000 + pOr0 d) := by
      simp only [timeToSeconds, hp]
    rw [hfix,
      t2s_canonical (padStart_no_sep ha) (padStart_no_sep hb) (padStart_no_sep hc) hd
        (padStart2_ne_nil a) hdne (padStart2_head_ok hahead) hdlast]
    rw [hrhs, pOr0_padStart2, pOr0_padStart2, pOr0_padStart2]
  · rw [roundTripOk, hp] at h
    simp at h

theorem parse_canonicalize_roundtrip_witness :
    roundTripOk (str "00:13:300") = true ∧
      timeToSeconds (fixSingleTime (str "00:13:300")) = timeToSeconds (str "00:13:300") :=
  ⟨by decide, parse_canonicalize_roundtrip (str "00:13:300") (by decide)⟩

/--
C3 (counterexample): `"00:00:01,5"` has a recognized 4-component shape,
but canonicalization right-pads its milliseconds to `500`, so the
round-trip changes the parsed value (1.005 s becomes 1.5 s).
-/
theorem parse_canonicalize_roundtrip_cex :
    (splitOnP sepChar (trim (str "00:00:01,5"))).length = 4 ∧
      timeToSeconds (fixSingleTime (str "00:00:01,5")) ≠
        timeToSeconds (str "00:00:01,5") := by decide

lemma lastNonWs_ok {D : Str} (h : lastNonWs D = true) :
    ∀ ch, D.getLast? = some ch → isJsWs ch = false := by
  intro ch hch
  rw [lastNonWs, hch] at h
  simpa using h

/--
`fixSingleTime` is the identity on a string already in strict canonical
shape: four separator-free fields `A:B:C,D` with `A`, `B`, `C` at least
two characters, `D` exactly three, a non-whitespace head and a
non-whitespace last character.
-/
lemma fix_canonical {A B C D : Str}
    (hA : ∀ c ∈ A, sepChar c = false) (hB : ∀ c ∈ B, sepChar c = false)
    (hC : ∀ c ∈ C, sepChar c = false) (hD : ∀ c ∈ D, sepChar c = false)
    (hAne : A ≠ []) (hDne : D ≠ [])
    (hAhead : ∀ c, A.head? = some c → isJsWs c = false)
    (hDlast : ∀ c, D.getLast? = some c → isJsWs c = false)
    (hlA : 2 ≤ A.length) (hlB : 2 ≤ B.length) (hlC : 2 ≤ C.length)
    (hlD : D.length = 3) :
    fixSingleTime (A ++ ':' :: (B ++ ':' :: (C ++ ',' :: D))) =
      A ++ ':' :: (B ++ ':' :: (C ++ ',' :: D)) := by
  have hhead : ∀ c, (A ++ ':' :: (B ++ ':' :: (C ++ ',' :: D))).head? = some c →
      isJsWs c = false := by
    intro c hc
    rcases A with _ | ⟨a0, A'⟩
    · exact absurd rfl hAne
    · rw [List.cons_append, List.head?_cons] at hc
      exact hAhead c (by rw [List.head?_cons, hc])
  have hlast : ∀ c, (A ++ ':' :: (B ++ ':' :: (C ++ ',' :: D))).getLast? = some c →
      isJsWs c = false := by
    have e1 : (A ++ ':' :: (B ++ ':' :: (C ++ ',' :: D))).getLast? = D.getLast? := by
      rw [getLast?_append_right (by simp),
        show (':' :: (B ++ ':' :: (C ++ ',' :: D))) =
          [':'] ++ (B ++ ':' :: (C ++ ',' :: D)) from rfl,
        getLast?_append_right (by simp),
        getLast?_append_right (by simp),
        show (':' :: (C ++ ',' :: D)) = [':'] ++ (C ++ ',' :: D) from rfl,
        getLast?_append_right (by simp),
        getLast?_append_right (by simp),
        show (',' :: D) = [','] ++ D from rfl,
        getLast?_append_right hDne]
    intro c hc
    rw [e1] at hc
    exact hDlast c hc
  simp only [fixSingleTime]
  rw [trim_eq_self hhead hlast,
    splitOnP_four hA hB hC hD (by decide) (by decide) (by decide)]
  show padStart 2 '0' A ++ [':'] ++ padStart 2 '0' B ++ [':'] ++ padStart 2 '0' C
      ++ [','] ++ (padEnd 3 '0' D).take 3 = A ++ ':' :: (B ++ ':' :: (C ++ ',' :: D))
  rw [padStart_of_le hlA, padStart_of_le hlB, padStart_of_le hlC,
    take_padEnd_of_length hlD]
  simp [List.append_assoc]

/--
C4 (amended): `fixSingleTime (fixSingleTime x) = fixSingleTime x` holds
whenever the milliseconds field the canonicalizer writes does not end in
whitespace (`fixMsOk`); in particular it holds on every all-digit
timestamp, and canonicalizing an already-canonical `HH:MM:SS,mmm`
timestamp reproduces it unchanged.  Without that condition the second
pass trims the milliseconds field and re-pads it (see the
counterexample).
-/
theorem fixSingleTime_idem (x : Str) (h : fixMsOk x = true) :
    fixSingleTime (fixSingleTime x) = fixSingleTime x ∧
      fixSingleTime (str "01:02:03,004") = str "01:02:03,004" := by
  refine ⟨?_, by decide⟩
  rcases hp : splitOnP sepChar (trim x) with _ | ⟨a, _ | ⟨b, _ | ⟨c, _ | ⟨d, _ | ⟨e, L⟩⟩⟩⟩⟩
  · exact absurd hp (by simp [splitOnP])
  · have hfx : fixSingleTime x = trim x := by simp only [fixSingleTime, hp]
    rw [hfx]
    simp only [fixSingleTime, trim_idem, hp]
  · -- 2 components
    have ha : ∀ ch ∈ a, sepChar ch = false :=
      splitOnP_comps_no_sep (s := trim x) (by rw [hp]; simp)
    have hb : ∀ ch ∈ b, sepChar ch = false :=
      splitOnP_comps_no_sep (s := trim x) (by rw [hp]; simp)
    have hfix : fixSingleTime x =
        ['0', '0'] ++ ':' :: (padStart 2 '0' a ++ ':' :: (padStart 2 '0' b
          ++ ',' :: ['0', '0', '0'])) := by
      simp only [fixSingleTime, hp]
      rw [show str "00:" = ['0', '0', ':'] from rfl, show str ",000" = [',', '0', '0', '0'] from rfl]
      simp [List.append_assoc]
    rw [hfix,
      fix_canonical (by decide) (padStart_no_sep ha) (padStart_no_sep hb) (by decide)
        (by decide) (by decide) (head_ok_of_all (by decide)) (last_ok_of_all (by decide))
        (by decide) (by rw [padStart_length]; omega) (by rw [padStart_length]; omega)
        (by decide)]
  · -- 3 components
    have ha : ∀ ch ∈ a, sepChar ch = false :=
      splitOnP_comps_no_sep (s := trim x) (by rw [hp]; simp)
    have hb : ∀ ch ∈ b, sepChar ch = false :=
      splitOnP_comps_no_sep (s := trim x) (by rw [hp]; simp)
    have hc : ∀ ch ∈ c, sepChar ch = false :=
      splitOnP_comps_no_sep (s := trim x) (by rw [hp]; simp)
    have hafst : (splitPair sepChar (trim x)).1 = a := by
      have h2 := hp
      rw [splitOnP] at h2
      exact (List.cons.injEq _ _ _ _).mp h2 |>.1
    have hahead : ∀ ch, a.head? = some ch → isJsWs ch = false :=
      prefix_head_ok (hafst ▸ splitPair_fst_prefix sepChar (trim x))
        (fun _ hch => trim_head_ok hch)
    by_cases hcond : (autoGt59 c || decide (c.length = 3)) = true
    · -- treated as MM:SS,mmm
      simp only [fixMsOk, hp] at h
      rw [if_pos hcond] at h
      have hdlast := lastNonWs_ok h
      have hdfree : ∀ ch ∈ (padEnd 3 '0' c).take 3, sepChar ch = false := by
        intro ch hch
        rcases mem_take_padEnd hch with h2 | h2
        · exact hc ch h2
        · rw [h2]; decide
      have hfix : fixSingleTime x =
          ['0', '0'] ++ ':' :: (padStart 2 '0' a ++ ':' :: (padStart 2 '0' b
            ++ ',' :: (padEnd 3 '0' c).take 3)) := by
        simp only [fixSingleTime, hp, hcond, if_true]
        rw [show str "00:" = ['0', '0', ':'] from rfl]
        simp [List.append_assoc]
      rw [hfix,
        fix_canonical (by decide) (padStart_no_sep ha) (padStart_no_sep hb) hdfree
          (by decide) (by apply List.ne_nil_of_length_pos; rw [length_take_padEnd]; omega)
          (head_ok_of_all (by decide)) hdlast
          (by decide) (by rw [padStart_length]; omega) (by rw [padStart_length]; omega)
          (length_take_padEnd c)]
    · -- treated as H:MM:SS
      have hcond' : (autoGt59 c || decide (c.length = 3)) = false := by
        simpa using hcond
      have hfix : fixSingleTime x =
          padStart 2 '0' a ++ ':' :: (padStart 2 '0' b ++ ':' :: (padStart 2 '0' c
            ++ ',' :: ['0', '0', '0'])) := by
        simp only [fixSingleTime, hp, hcond', Bool.false_eq_true, if_false]
        rw [show str ",000" = [',', '0', '0', '0'] from rfl]
        simp [List.append_assoc]
      rw [hfix,
        fix_canonical (padStart_no_sep ha) (padStart_no_sep hb) (padStart_no_sep hc)
          (by decide) (padStart2_ne_nil a) (by decide)
          (padStart2_head_ok hahead) (last_ok_of_all (by decide))
          (by rw [padStart_length]; omega) (by rw [padStart_length]; omega)
          (by rw [padStart_length]; omega) (by decide)]
  · -- 4 components
    simp only [fixMsOk, hp] at h
    have hdlast := lastNonWs_ok h
    have ha : ∀ ch ∈ a, sepChar ch = false :=
      splitOnP_comps_no_sep (s := trim x) (by rw [hp]; simp)
    have hb : ∀ ch ∈ b, sepChar ch = false :=
      splitOnP_comps_no_sep (s := trim x) (by rw [hp]; simp)
    have hc : ∀ ch ∈ c, sepChar ch = false :=
      splitOnP_comps_no_sep (s := trim x) (by rw [hp]; simp)
    have hd : ∀ ch ∈ d, sepChar ch = false :=
      splitOnP_comps_no_sep (s := trim x) (by rw [hp]; simp)
    have hafst : (splitPair sepChar (trim x)).1 = a := by
      have h2 := hp
      rw [splitOnP] at h2
      exact (List.cons.injEq _ _ _ _).mp h2 |>.1
    have hahead : ∀ ch, a.head? = some ch → isJsWs ch = false :=
      prefix_head_ok (hafst ▸ splitPair_fst_prefix sepChar (trim x))
        (fun _ hch => trim_head_ok hch)
    have hdfree : ∀ ch ∈ (padEnd 3 '0' d).take 3, sepChar ch = false := by
      intro ch hch
      rcases mem_take_padEnd hch with h2 | h2
      · exact hd ch h2
      · rw [h2]; decide
    have hfix : fixSingleTime x =
        padStart 2 '0' a ++ ':' :: (padStart 2 '0' b ++ ':' :: (padStart 2 '0' c
          ++ ',' :: (padEnd 3 '0' d).take 3)) := by
      simp only [fixSingleTime, hp]
      simp [List.append_assoc]
    rw [hfix,
      fix_canonical (padStart_no_sep ha) (padStart_no_sep hb) (padStart_no_sep hc) hdfree
        (padStart2_ne_nil a)
        (by apply List.ne_nil_of_length_pos; rw [length_take_padEnd]; omega)
        (padStart2_head_ok hahead) hdlast
        (by rw [padStart_length]; omega) (by rw [padStart_length]; omega)
        (by rw [padStart_length]; omega) (length_take_padEnd d)]
  · have hfx : fixSingleTime x = trim x := by simp only [fixSingleTime, hp]
    rw [hfx]
    simp only [fixSingleTime, trim_idem, hp]

theorem fixSingleTime_idem_witness :
    fixMsOk (str "00:13:300") = true ∧
      fixSingleTime (fixSingleTime (str "00:13:300")) = fixSingleTime (str "00:13:300") :=
  ⟨by decide, (fixSingleTime_idem (str "00:13:300") (by decide)).1⟩

/--
C4 (counterexample): canonicalization is not idempotent on every string —
for `"1:2:3,45 6"` the first pass truncates the milliseconds component to
`"45 "` (trailing space), which the second pass trims and re-pads to
`"450"`.
-/
theorem fixSingleTime_idem_cex :
    fixSingleTime (fixSingleTime (str "1:2:3,45 6")) ≠
      fixSingleTime (str "1:2:3,45 6") := by decide

/-! ### Lemmas for the ASS export / cue-list correspondence -/

lemma findTiming_mem_arrow :
    ∀ {L : List Str} {tl : Str} {rest : List Str},
      findTiming L = some (tl, rest) → tl ∈ L ∧ hasArrow tl = true := by
  intro L
  induction L with
  | nil => intro tl rest h; exact absurd h (by simp [findTiming])
  | cons l ls ih =>
    intro tl rest h
    by_cases ha : hasArrow l = true
    · rw [findTiming, if_pos ha] at h
      have h3 : l = tl := congrArg Prod.fst (Option.some.inj h)
      rw [← h3]
      exact ⟨by simp, ha⟩
    · rw [findTiming, if_neg ha] at h
      rcases ih h with ⟨h1, h2⟩
      exact ⟨by simp [h1], h2⟩

lemma splitArrowPair_cons_ne {c : Char} (r : Str) (h : c ≠ '-') :
    splitArrowPair (c :: r) = (c :: (splitArrowPair r).1, (splitArrowPair r).2) := by
  rw [splitArrowPair.eq_def]
  split <;> simp_all

lemma splitArrowPair_arrow (r : Str) :
    splitArrowPair ('-' :: '-' :: '>' :: r) =
      ([], (splitArrowPair r).1 :: (splitArrowPair r).2) := rfl

lemma splitArrowPair_append_no_dash :
    ∀ {t1 : Str}, (∀ c ∈ t1, c ≠ '-') → ∀ r : Str,
      splitArrowPair (t1 ++ r) = (t1 ++ (splitArrowPair r).1, (splitArrowPair r).2) := by
  intro t1
  induction t1 with
  | nil => intro _ r; simp
  | cons c t1 ih =>
    intro h r
    rw [List.cons_append, splitArrowPair_cons_ne _ (h c (by simp)),
      ih (fun x hx => h x (by simp [hx])) r]
    simp

lemma splitArrowPair_no_dash {t : Str} (h : ∀ c ∈ t, c ≠ '-') :
    splitArrowPair t = (t, []) := by
  have := splitArrowPair_append_no_dash h []
  simpa [splitArrowPair] using this

lemma splitArrow_canonical {t1 t2 : Str}
    (h1 : ∀ c ∈ t1, c ≠ '-') (h2 : ∀ c ∈ t2, c ≠ '-') :
    splitArrow (t1 ++ str " --> " ++ t2) = [t1 ++ [' '], ' ' :: t2] := by
  have e : t1 ++ str " --> " ++ t2 =
      t1 ++ (' ' :: ('-' :: '-' :: '>' :: (' ' :: t2))) := by
    rw [List.append_assoc]
    rfl
  rw [splitArrow, e, splitArrowPair_append_no_dash h1,
    splitArrowPair_cons_ne _ (by decide), splitArrowPair_arrow,
    splitArrowPair_no_dash (fun c hc => by
      rcases List.mem_cons.mp hc with rfl | hc
      · decide
      · exact h2 c hc)]

lemma trim_append_space {t : Str} (hne : t ≠ [])
    (hh : ∀ c, t.head? = some c → isJsWs c = false)
    (hl : ∀ c, t.getLast? = some c → isJsWs c = false) :
    trim (t ++ [' ']) = t := by
  rw [trim, trimLeft_eq_self (fun c hc => by
    rcases t with _ | ⟨a, t'⟩
    · exact absurd rfl hne
    · rw [List.cons_append, List.head?_cons] at hc
      exact hh c (by rw [List.head?_cons, hc]))]
  rw [trimRight, List.reverse_append]
  show (List.dropWhile isJsWs (' ' :: t.reverse)).reverse = t
  rw [List.dropWhile_cons, if_pos (by decide),
    dropWhile_eq_self_of_head (by simpa using hl), List.reverse_reverse]

lemma trim_cons_space {t : Str}
    (hh : ∀ c, t.head? = some c → isJsWs c = false)
    (hl : ∀ c, t.getLast? = some c → isJsWs c = false) :
    trim (' ' :: t) = t := by
  rw [trim, trimLeft, List.dropWhile_cons, if_pos (by decide),
    show List.dropWhile isJsWs t = t from dropWhile_eq_self_of_head hh,
    trimRight_eq_self hl]

lemma trim_ne_nil {l : Str} (h : trim l ≠ []) : l ≠ [] := by
  intro h2
  rw [h2] at h
  exact h rfl

lemma joinSep_eq_nil_iff {sep : Str} {L : List Str} (h : ∀ l ∈ L, l ≠ []) :
    (joinSep sep L = [] ↔ L = []) := by
  cases L with
  | nil => simp [joinSep]
  | cons x rest =>
    cases rest with
    | nil =>
      simp only [joinSep]
      exact ⟨fun hx => absurd hx (h x (by simp)), fun hx => by simp at hx⟩
    | cons y ys =>
      simp only [joinSep]
      constructor
      · intro hx
        rcases List.append_eq_nil.mp (List.append_eq_nil.mp hx).1 with ⟨hx1, _⟩
        exact absurd hx1 (h x (by simp))
      · intro hx
        simp at hx

lemma isDig_not_sep {c : Char} (h : isDig c = true) : sepChar c = false := by
  cases hs : sepChar c
  · rfl
  · have h2 : c = ':' ∨ c = ',' ∨ c = '.' := by simpa [sepChar, or_assoc] using hs
    rcases h2 with rfl | rfl | rfl <;> exact absurd h (by decide)

lemma canonTs_facts {t : Str} (ht : canonTs t) :
    (∃ v, timeToSeconds t = some v) ∧
    (∀ c ∈ t, c ≠ '-') ∧
    t ≠ [] ∧
    (∀ c, t.head? = some c → isJsWs c = false) ∧
    (∀ c, t.getLast? = some c → isJsWs c = false) := by
  obtain ⟨a, b, c, d, e, f, g, h1, i, hdig, rfl⟩ := ht
  have da := hdig a (by simp)
  have db := hdig b (by simp)
  have dc := hdig c (by simp)
  have dd := hdig d (by simp)
  have de := hdig e (by simp)
  have df := hdig f (by simp)
  have dg := hdig g (by simp)
  have dh := hdig h1 (by simp)
  have di := hdig i (by simp)
  have hAfree : ∀ x ∈ [a, b], sepChar x = false := by
    intro x hx
    rcases List.mem_cons.mp hx with rfl | hx
    · exact isDig_not_sep da
    · rcases List.mem_singleton.mp hx with rfl
      exact isDig_not_sep db
  have hBfree : ∀ x ∈ [c, d], sepChar x = false := by
    intro x hx
    rcases List.mem_cons.mp hx with rfl | hx
    · exact isDig_not_sep dc
    · rcases List.mem_singleton.mp hx with rfl
      exact isDig_not_sep dd
  have hCfree : ∀ x ∈ [e, f], sepChar x = false := by
    intro x hx
    rcases List.mem_cons.mp hx with rfl | hx
    · exact isDig_not_sep de
    · rcases List.mem_singleton.mp hx with rfl
      exact isDig_not_sep df
  have hDfree : ∀ x ∈ [g, h1, i], sepChar x = false := by
    intro x hx
    rcases List.mem_cons.mp hx with rfl | hx
    · exact isDig_not_sep dg
    · rcases List.mem_cons.mp hx with rfl | hx
      · exact isDig_not_sep dh
      · rcases List.mem_singleton.mp hx with rfl
        exact isDig_not_sep di
  have hAhead : ∀ x, ([a, b] : Str).head? = some x → isJsWs x = false := by
    intro x hx
    rw [List.head?_cons] at hx
    rw [← Option.some.inj hx]
    exact isDig_not_ws da
  have hDlast : ∀ x, ([g, h1, i] : Str).getLast? = some x → isJsWs x = false := by
    intro x hx
    rw [show ([g, h1, i] : Str).getLast? = some i from rfl] at hx
    rw [← Option.some.inj hx]
    exact isDig_not_ws di
  refine ⟨?_, ?_, by simp, ?_, ?_⟩
  · rw [show ([a, b, ':', c, d, ':', e, f, ',', g, h1, i] : Str) =
      [a, b] ++ ':' :: ([c, d] ++ ':' :: ([e, f] ++ ',' :: [g, h1, i])) from rfl,
      t2s_canonical hAfree hBfree hCfree hDfree (by simp) (by simp) hAhead hDlast]
    exact ⟨_, rfl⟩
  · intro x hx
    simp only [List.mem_cons, List.not_mem_nil, or_false] at hx
    rcases hx with rfl | rfl | rfl | rfl | rfl | rfl | rfl | rfl | rfl | rfl | rfl | rfl
    · exact isDig_ne_dash da
    · exact isDig_ne_dash db
    · decide
    · exact isDig_ne_dash dc
    · exact isDig_ne_dash dd
    · decide
    · exact isDig_ne_dash de
    · exact isDig_ne_dash df
    · decide
    · exact isDig_ne_dash dg
    · exact isDig_ne_dash dh
    · exact isDig_ne_dash di
  · intro x hx
    rw [List.head?_cons] at hx
    rw [← Option.some.inj hx]
    exact isDig_not_ws da
  · intro x hx
    rw [show ([a, b, ':', c, d, ':', e, f, ',', g, h1, i] : Str).getLast? = some i
      from rfl] at hx
    rw [← Option.some.inj hx]
    exact isDig_not_ws di

lemma matchStdAt_canonical {t1 t2 : Str} (h1 : canonTs t1) (h2 : canonTs t2) :
    ∃ gr, matchStdAt (t1 ++ str " --> " ++ t2) = some gr := by
  obtain ⟨a, b, c, d, e, f, g, h, i, hdig1, rfl⟩ := h1
  obtain ⟨a2, b2, c2, d2, e2, f2, g2, h2, i2, hdig2, rfl⟩ := h2
  have da := hdig1 a (by simp)
  have db := hdig1 b (by simp)
  have dc := hdig1 c (by simp)
  have dd := hdig1 d (by simp)
  have de := hdig1 e (by simp)
  have df := hdig1 f (by simp)
  have dg := hdig1 g (by simp)
  have dh := hdig1 h (by simp)
  have di := hdig1 i (by simp)
  have da2 := hdig2 a2 (by simp)
  have db2 := hdig2 b2 (by simp)
  have dc2 := hdig2 c2 (by simp)
  have dd2 := hdig2 d2 (by simp)
  have de2 := hdig2 e2 (by simp)
  have df2 := hdig2 f2 (by simp)
  have dg2 := hdig2 g2 (by simp)
  have dh2 := hdig2 h2 (by simp)
  have di2 := hdig2 i2 (by simp)
  have w1 : isJsWs ' ' = true := by decide
  have w2 : isJsWs '-' = false := by decide
  have wa2 : isJsWs a2 = false := isDig_not_ws da2
  refine ⟨([a, b, ':', c, d, ':', e, f], [g, h, i],
    [a2, b2, ':', c2, d2, ':', e2, f2], [g2, h2, i2]), ?_⟩
  simp [matchStdAt, eatHMS, eatD12, eatD2, eatD3, eatDigit, eatChar, eatClass,
    eatArrowWs, str, da, db, dc, dd, de, df, dg, dh, di,
    da2, db2, dc2, dd2, de2, df2, dg2, dh2, di2,
    List.dropWhile_cons, w1, w2, wa2]

lemma matchStd_of_matchStdAt {l : Str} {gr : Str × Str × Str × Str}
    (hne : l ≠ []) (h : matchStdAt l = some gr) : matchStd l = some gr := by
  rcases l with _ | ⟨c, r⟩
  · exact absurd rfl hne
  · simp only [matchStd, h]

lemma blockSurvival {b : Str}
    (hb : ∀ l ∈ lineSplit b, hasArrow l = true → canonArrowLine l) :
    (blockToCue b).isSome = (blockToEvent b).isSome := by
  by_cases hl : (lineSplit b).length < 2
  · simp [blockToCue, blockToEvent, hl]
  · rcases hft : findTiming (lineSplit b) with _ | ⟨tl, rest⟩
    · simp [blockToCue, blockToEvent, hl, hft]
    · obtain ⟨hmem, harr⟩ := findTiming_mem_arrow hft
      obtain ⟨t1, t2, hc1, hc2, rfl⟩ := hb tl hmem harr
      obtain ⟨⟨v1, hv1⟩, hnd1, hne1, hh1, hl1⟩ := canonTs_facts hc1
      obtain ⟨⟨v2, hv2⟩, hnd2, hne2, hh2, hl2⟩ := canonTs_facts hc2
      have hparts : (splitArrow (t1 ++ str " --> " ++ t2)).map trim = [t1, t2] := by
        rw [splitArrow_canonical hnd1 hnd2]
        simp [trim_append_space hne1 hh1 hl1, trim_cons_space hh2 hl2]
      obtain ⟨gr, hgr⟩ := matchStdAt_canonical hc1 hc2
      have hms : matchStd (t1 ++ str " --> " ++ t2) = some gr :=
        matchStd_of_matchStdAt
          (fun hC => hne1 (List.append_eq_nil.mp (List.append_eq_nil.mp hC).1).1) hgr
      obtain ⟨g1, g2, g3, g4⟩ := gr
      rw [List.append_assoc] at hparts hms
      have helem : ∀ l ∈ rest.filter (fun l => !(trim l).isEmpty), l ≠ [] := by
        intro l hlm
        have h2 := (List.mem_filter.mp hlm).2
        exact trim_ne_nil (by simpa [List.isEmpty_iff] using h2)
      by_cases hT : rest.filter (fun l => !(trim l).isEmpty) = []
      · have hj1 : joinSep [' '] (rest.filter (fun l => !(trim l).isEmpty)) = [] := by
          rw [hT]; rfl
        have hj2 : joinSep (str "\\N") (rest.filter (fun l => !(trim l).isEmpty)) = [] := by
          rw [hT]; rfl
        simp [blockToCue, blockToEvent, hl, hft, hparts, hv1, hv2, hms, hj1, hj2]
      · have hj1 : joinSep [' '] (rest.filter (fun l => !(trim l).isEmpty)) ≠ [] :=
          fun hx => hT ((joinSep_eq_nil_iff helem).mp hx)
        have hj2 : joinSep (str "\\N") (rest.filter (fun l => !(trim l).isEmpty)) ≠ [] :=
          fun hx => hT ((joinSep_eq_nil_iff helem).mp hx)
        simp [blockToCue, blockToEvent, hl, hft, hparts, hv1, hv2, hms,
          List.isEmpty_iff, hj1, hj2]

lemma length_filterMap_congr {α β : Type} {f : Str → Option α} {g : Str → Option β} :
    ∀ L : List Str, (∀ b ∈ L, (f b).isSome = (g b).isSome) →
      (L.filterMap f).length = (L.filterMap g).length := by
  intro L
  induction L with
  | nil => intro _; rfl
  | cons x xs ih =>
    intro h
    have hx := h x (by simp)
    rcases hfx : f x with _ | a <;> rcases hgx : g x with _ | a2
    · simp [List.filterMap_cons, hfx, hgx, ih (fun y hy => h y (by simp [hy]))]
    · rw [hfx, hgx] at hx
      simp at hx
    · rw [hfx, hgx] at hx
      simp at hx
    · simp [List.filterMap_cons, hfx, hgx, ih (fun y hy => h y (by simp [hy]))]

/--
C7 (amended): for every document all of whose arrow lines consist of
exactly two strict `HH:MM:SS,mmm` timestamps joined by `" --> "`, the ASS
export emits exactly one `Dialogue` record per cue of the cue-list parse:
the same blocks survive on both sides, in the same order, so the event
list and the cue list have equal length.  On other documents the two
parses accept different blocks (see the counterexample).
-/
theorem ass_export_cue_correspondence (doc : Str)
    (h : ∀ b ∈ blocks doc, ∀ l ∈ lineSplit b, hasArrow l = true → canonArrowLine l) :
    ((blocks doc).map (fun b => (blockToCue b).isSome) =
      (blocks doc).map (fun b => (blockToEvent b).isSome)) ∧
    (parseSrtToSubtitles doc).length = (assEvents doc).length := by
  constructor
  · apply List.map_congr_left
    intro b hb
    exact blockSurvival (h b hb)
  · exact length_filterMap_congr (blocks doc) (fun b hb => blockSurvival (h b hb))

theorem ass_export_cue_correspondence_witness :
    (parseSrtToSubtitles (str "1\n00:00:01,000 --> 00:00:02,000\nhello")).length =
      (assEvents (str "1\n00:00:01,000 --> 00:00:02,000\nhello")).length := by
  refine (ass_export_cue_correspondence (str "1\n00:00:01,000 --> 00:00:02,000\nhello")
    ?_).2
  intro b hb l hl harr
  have hbl : blocks (str "1\n00:00:01,000 --> 00:00:02,000\nhello") =
      [str "1\n00:00:01,000 --> 00:00:02,000\nhello"] := by decide
  rw [hbl] at hb
  rcases List.mem_singleton.mp hb with rfl
  have hls : lineSplit (str "1\n00:00:01,000 --> 00:00:02,000\nhello") =
      [str "1", str "00:00:01,000 --> 00:00:02,000", str "hello"] := by decide
  rw [hls] at hl
  simp only [List.mem_cons, List.not_mem_nil, or_false] at hl
  rcases hl with rfl | rfl | rfl
  · exact absurd harr (by decide)
  · exact ⟨str "00:00:01,000", str "00:00:02,000",
      ⟨'0', '0', '0', '0', '0', '1', '0', '0', '0', by decide, by decide⟩,
      ⟨'0', '0', '0', '0', '0', '2', '0', '0', '0', by decide, by decide⟩, by decide⟩
  · exact absurd harr (by decide)

/--
C7 (counterexample): the ASS export is a separate parse with different
acceptance — `"0:05 --> 0:09"` is accepted by the cue-list parse (2-component
timestamps) but matches neither `srtToAss` timing regex, so the document
yields one cue but zero `Dialogue` records.
-/
theorem ass_export_cue_correspondence_cex :
    (parseSrtToSubtitles (str "1\n0:05 --> 0:09\nhi")).length = 1 ∧
      (assEvents (str "1\n0:05 --> 0:09\nhi")).length = 0 := by decide

end EZLyric
